import Mathlib

/-!
Verification development for the karapace backup/restore V3 format engine and
the protobuf dependency verifier.

The V3 engine (metadata codec, data-file writer/reader, checksumming with
checkpoints, two-tier verifier, backup/restore orchestrators) is modelled from
the specification, with the repository's integration tests pinning exact
messages and layouts.  The protobuf dependency verifier is embedded directly
from `karapace/protobuf/dependency.py`.

Bytes are modelled as natural numbers (well-formed files have every byte
below 256); machine-word arithmetic is explicit modulo 2^64.
-/

namespace Karapace

/-- 2^64, the modulus of the 64-bit checksum accumulator. -/
def B64 : Nat := 2 ^ 64

/-- Little-endian fixed-width encoding of a natural number into `k` bytes. -/
def encLE : Nat → Nat → List Nat
  | 0, _ => []
  | k + 1, n => n % 256 :: encLE k (n / 256)

/-- Decode a `k`-byte little-endian number from the front of the input,
returning the value and the remaining input. -/
def decLE : Nat → List Nat → Option (Nat × List Nat)
  | 0, bs => some (0, bs)
  | _ + 1, [] => none
  | k + 1, b :: bs =>
    match decLE k bs with
    | some (n, rest) => some (b + 256 * n, rest)
    | none => none

theorem encLE_length (k n : Nat) : (encLE k n).length = k := by
  induction k generalizing n with
  | zero => rfl
  | succ k ih => simp [encLE, ih]

theorem decLE_encLE (k : Nat) (n : Nat) (rest : List Nat) (h : n < 256 ^ k) :
    decLE k (encLE k n ++ rest) = some (n, rest) := by
  induction k generalizing n with
  | zero =>
    have : n = 0 := by simpa using h
    simp [encLE, decLE, this]
  | succ k ih =>
    have hlt : n / 256 < 256 ^ k := Nat.div_lt_of_lt_mul (by rw [← pow_succ']; exact h)
    simp only [encLE, List.cons_append, decLE, List.append_eq]
    rw [ih (n / 256) hlt]
    have hn : n % 256 + 256 * (n / 256) = n := by
      have := Nat.mod_add_div n 256
      omega
    simp [hn]

/-- Length-prefixed encoding of a byte sequence (8-byte little-endian length). -/
def encBytes (bs : List Nat) : List Nat := encLE 8 bs.length ++ bs

/-- Decode a length-prefixed byte sequence. -/
def decBytes (input : List Nat) : Option (List Nat × List Nat) :=
  match decLE 8 input with
  | some (len, rest) =>
    if len ≤ rest.length then some (rest.take len, rest.drop len) else none
  | none => none

theorem decBytes_encBytes (bs rest : List Nat) (h : bs.length < B64) :
    decBytes (encBytes bs ++ rest) = some (bs, rest) := by
  have h' : bs.length < 256 ^ 8 := by
    have : (256 : Nat) ^ 8 = B64 := by norm_num [B64]
    omega
  simp only [encBytes, decBytes, List.append_assoc, decLE_encLE 8 bs.length (bs ++ rest) h']
  rw [if_pos (by simp)]
  simp

/-- Encoding of an optional byte sequence: tag byte 0 for absent, 1 followed by
a length-prefixed sequence for present. -/
def encOptBytes : Option (List Nat) → List Nat
  | none => [0]
  | some bs => 1 :: encBytes bs

/-- Decode an optional byte sequence. -/
def decOptBytes : List Nat → Option (Option (List Nat) × List Nat)
  | [] => none
  | 0 :: rest => some (none, rest)
  | 1 :: rest =>
    match decBytes rest with
    | some (bs, r) => some (some bs, r)
    | none => none
  | (_ + 2) :: _ => none

theorem decOptBytes_encOptBytes (o : Option (List Nat)) (rest : List Nat)
    (h : ∀ bs ∈ o, bs.length < B64) :
    decOptBytes (encOptBytes o ++ rest) = some (o, rest) := by
  cases o with
  | none => rfl
  | some bs =>
    simp only [encOptBytes, List.cons_append, decOptBytes,
      decBytes_encBytes bs rest (h bs rfl)]

/-- Encoding of a header list: 8-byte count followed by length-prefixed
name/value pairs in order. -/
def encHeaders (hs : List (List Nat × List Nat)) : List Nat :=
  encLE 8 hs.length ++ hs.flatMap (fun p => encBytes p.1 ++ encBytes p.2)

/-- Decode exactly `k` length-prefixed name/value pairs. -/
def decPairs : Nat → List Nat → Option (List (List Nat × List Nat) × List Nat)
  | 0, input => some ([], input)
  | k + 1, input =>
    match decBytes input with
    | none => none
    | some (name, r1) =>
      match decBytes r1 with
      | none => none
      | some (value, r2) =>
        match decPairs k r2 with
        | none => none
        | some (ps, r3) => some ((name, value) :: ps, r3)

/-- Decode a header list. -/
def decHeaders (input : List Nat) : Option (List (List Nat × List Nat) × List Nat) :=
  match decLE 8 input with
  | none => none
  | some (k, rest) => decPairs k rest

theorem decPairs_enc (hs : List (List Nat × List Nat)) (rest : List Nat)
    (h : ∀ p ∈ hs, p.1.length < B64 ∧ p.2.length < B64) :
    decPairs hs.length (hs.flatMap (fun p => encBytes p.1 ++ encBytes p.2) ++ rest) =
      some (hs, rest) := by
  induction hs with
  | nil => rfl
  | cons p ps ih =>
    have hp := h p (by simp)
    simp only [List.flatMap_cons, List.length_cons, List.append_assoc, decPairs,
      decBytes_encBytes p.1 _ hp.1, decBytes_encBytes p.2 _ hp.2,
      ih (fun q hq => h q (by simp [hq]))]

theorem decHeaders_encHeaders (hs : List (List Nat × List Nat)) (rest : List Nat)
    (hlen : hs.length < B64) (h : ∀ p ∈ hs, p.1.length < B64 ∧ p.2.length < B64) :
    decHeaders (encHeaders hs ++ rest) = some (hs, rest) := by
  have h8 : hs.length < 256 ^ 8 := by
    have : (256 : Nat) ^ 8 = B64 := by norm_num [B64]
    omega
  simp only [encHeaders, decHeaders, List.append_assoc, decLE_encLE 8 hs.length _ h8]
  exact decPairs_enc hs rest h

/-- A record as streamed by the Data File Writer and Reader.  `key` and
`value` are optional byte sequences, `headers` an ordered list of name/value
pairs (names modelled by their encoded bytes), `timestamp` in milliseconds,
`timestamp_type` the create-time (0) / log-append-time (1) enum, and `offset`
the source cluster log offset. -/
structure SRecord where
  key : Option (List Nat)
  value : Option (List Nat)
  headers : List (List Nat × List Nat)
  timestamp : Nat
  timestamp_type : Nat
  offset : Nat
  deriving Repr, DecidableEq

/-- Modelled from the spec: the fixed, self-describing record framing used by
the Data File Writer (§4.3, §9: a length-prefixed framing is the documented
choice).  Serializes key, value, headers (in insertion order), timestamp,
timestamp type and source offset. -/
def serializeRecord (r : SRecord) : List Nat :=
  encOptBytes r.key ++ encOptBytes r.value ++ encHeaders r.headers ++
    encLE 8 r.timestamp ++ r.timestamp_type :: encLE 8 r.offset

/-- Well-formedness of a record for the fixed-width framing: all lengths and
numeric fields fit in 64 bits and the timestamp type is a valid enum value. -/
def wfRecord (r : SRecord) : Prop :=
  (∀ bs ∈ r.key, bs.length < B64) ∧ (∀ bs ∈ r.value, bs.length < B64) ∧
    r.headers.length < B64 ∧ (∀ p ∈ r.headers, p.1.length < B64 ∧ p.2.length < B64) ∧
    r.timestamp < B64 ∧ r.timestamp_type < 2 ∧ r.offset < B64 ∧
    (serializeRecord r).length < B64

instance (r : SRecord) : Decidable (wfRecord r) := by
  unfold wfRecord B64
  infer_instance

/-- Modelled from the spec: the Data File Reader's record parser (§4.4),
the inverse of `serializeRecord`; fails on unparsable input. -/
def parseRecord (input : List Nat) : Option (SRecord × List Nat) :=
  match decOptBytes input with
  | none => none
  | some (k, r1) =>
    match decOptBytes r1 with
    | none => none
    | some (v, r2) =>
      match decHeaders r2 with
      | none => none
      | some (hs, r3) =>
        match decLE 8 r3 with
        | none => none
        | some (ts, r4) =>
          match r4 with
          | [] => none
          | tt :: r5 =>
            match decLE 8 r5 with
            | none => none
            | some (off, r6) => some (⟨k, v, hs, ts, tt, off⟩, r6)

theorem parseRecord_serializeRecord (r : SRecord) (rest : List Nat) (h : wfRecord r) :
    parseRecord (serializeRecord r ++ rest) = some (r, rest) := by
  obtain ⟨hk, hv, hhl, hh, hts, htt, hoff, hslen⟩ := h
  have h64 : (256 : Nat) ^ 8 = B64 := by norm_num [B64]
  simp only [serializeRecord, parseRecord, List.append_assoc, List.cons_append,
    decOptBytes_encOptBytes r.key _ hk, decOptBytes_encOptBytes r.value _ hv,
    decHeaders_encHeaders r.headers _ hhl hh, decLE_encLE 8 r.timestamp _ (by omega),
    decLE_encLE 8 r.offset _ (by omega)]

/-- Modelled from the spec: one step of the 64-bit running checksum
accumulator (§4.1, §9: an explicit accumulator value threaded through each
step; a 64-bit non-cryptographic hash over the raw serialized-record bytes,
standing in for the tool's `xxhash3_64_be`). -/
def hashStep (acc b : Nat) : Nat := (acc + b) % B64

/-- Feed a byte sequence through the running checksum accumulator. -/
def hashBytes (acc : Nat) (bs : List Nat) : Nat := bs.foldl hashStep acc

/-- The checksum seed state. -/
def hashSeed : Nat := 0

theorem hashBytes_append (acc : Nat) (bs cs : List Nat) :
    hashBytes acc (bs ++ cs) = hashBytes (hashBytes acc bs) cs := by
  simp [hashBytes]

theorem B64_pos : 0 < B64 := by norm_num [B64]

/-- The running checksum is the byte sum modulo 2^64. -/
theorem hashBytes_eq_sum (acc : Nat) (bs : List Nat) (h : acc < B64) :
    hashBytes acc bs = (acc + bs.sum) % B64 := by
  induction bs generalizing acc with
  | nil => simpa [hashBytes] using (Nat.mod_eq_of_lt h).symm
  | cons b bs ih =>
    have step : hashBytes acc (b :: bs) = hashBytes ((acc + b) % B64) bs := rfl
    rw [step, ih _ (Nat.mod_lt _ B64_pos), Nat.mod_add_mod, List.sum_cons]
    ring_nf

theorem hashBytes_lt (acc : Nat) (bs : List Nat) (h : acc < B64) : hashBytes acc bs < B64 := by
  rw [hashBytes_eq_sum acc bs h]
  exact Nat.mod_lt _ B64_pos

/-- A frame of a V3 data file: either one serialized record (length-prefixed)
or an embedded checkpoint carrying the record index and the running checksum
state at that point (§3 Checkpoint). -/
inductive Frame where
  | record (payload : List Nat)
  | cp (idx state : Nat)
  deriving Repr, DecidableEq

/-- Byte rendering of one frame: marker byte 0 for a record frame (followed by
the 8-byte payload length and the payload), marker byte 1 for a checkpoint
(followed by the 8-byte record index and 8-byte accumulator state). -/
def renderFrame : Frame → List Nat
  | .record p => 0 :: (encLE 8 p.length ++ p)
  | .cp i s => 1 :: (encLE 8 i ++ encLE 8 s)

/-- Byte rendering of a whole data file. -/
def renderFile (fs : List Frame) : List Nat := fs.flatMap renderFrame

/-- A frame is well-formed when its numeric fields fit the 8-byte framing. -/
def wfFrame : Frame → Prop
  | .record p => p.length < B64
  | .cp i s => i < B64 ∧ s < B64

instance (f : Frame) : Decidable (wfFrame f) := by
  cases f <;> (unfold wfFrame B64; infer_instance)

/-- Modelled from the spec: the Data File Writer's frame stream (§4.3).
Each record is serialized and fed to the running checksum accumulator; every
`k` records (cadence `k`, 0 meaning never) a checkpoint frame capturing the
accumulator's current state is emitted. -/
def writeScript (k : Nat) : List SRecord → Nat → Nat → List Frame
  | [], _, _ => []
  | r :: rs, idx, acc =>
    let p := serializeRecord r
    let acc' := hashBytes acc p
    Frame.record p ::
      ((if k ≠ 0 ∧ (idx + 1) % k = 0 then [Frame.cp (idx + 1) acc'] else []) ++
        writeScript k rs (idx + 1) acc')

/-- Modelled from the spec: the bytes of the data file produced by one Writer
run over a record sequence with checkpoint cadence `k`. -/
def writeDataFile (k : Nat) (rs : List SRecord) : List Nat :=
  renderFile (writeScript k rs 0 hashSeed)

/-- A checkpoint observation made by the Reader: the embedded record index,
the embedded accumulator state, and the state the Reader itself has computed
when reaching that checkpoint. -/
structure CheckObs where
  idx : Nat
  embedded : Nat
  computed : Nat
  deriving Repr, DecidableEq

/-- The Reader's result: the record sequence, the checkpoint observations in
file order, and the final recomputed digest. -/
structure ReadResult where
  records : List SRecord
  checkObs : List CheckObs
  digest : Nat
  deriving Repr, DecidableEq

/-- Modelled from the spec: the Data File Reader (§4.4).  Iterates the byte
stream frame by frame, recomputing the running checksum over serialized-record
bytes, exposing the checksum state at each checkpoint boundary, and failing
on unparsable framing or a truncated trailing record.  `fuel` bounds the
number of frames and is instantiated with the input length. -/
def readBody : Nat → List Nat → Nat → Option ReadResult
  | _, [], acc => some ⟨[], [], acc⟩
  | 0, _ :: _, _ => none
  | fuel + 1, 0 :: rest, acc =>
    match decLE 8 rest with
    | none => none
    | some (len, rest1) =>
      if len ≤ rest1.length then
        let payload := rest1.take len
        match parseRecord payload with
        | some (r, []) =>
          match readBody fuel (rest1.drop len) (hashBytes acc payload) with
          | some res => some ⟨r :: res.records, res.checkObs, res.digest⟩
          | none => none
        | _ => none
      else none
  | fuel + 1, 1 :: rest, acc =>
    match decLE 8 rest with
    | none => none
    | some (idx, rest1) =>
      match decLE 8 rest1 with
      | none => none
      | some (state, rest2) =>
        match readBody fuel rest2 acc with
        | some res => some ⟨res.records, ⟨idx, state, acc⟩ :: res.checkObs, res.digest⟩
        | none => none
  | _ + 1, _ :: _, _ => none

/-- Modelled from the spec: opening and fully iterating a data file (§4.4),
starting the running checksum from the seed state. -/
def readDataFile (input : List Nat) : Option ReadResult :=
  readBody input.length input hashSeed

/-- Frame-level semantics of the Reader: reading a frame list left to right,
threading the accumulator. -/
def readFramesSpec : List Frame → Nat → Option ReadResult
  | [], acc => some ⟨[], [], acc⟩
  | .record p :: fs, acc =>
    match parseRecord p with
    | some (r, []) =>
      match readFramesSpec fs (hashBytes acc p) with
      | some res => some ⟨r :: res.records, res.checkObs, res.digest⟩
      | none => none
    | _ => none
  | .cp i s :: fs, acc =>
    match readFramesSpec fs acc with
    | some res => some ⟨res.records, ⟨i, s, acc⟩ :: res.checkObs, res.digest⟩
    | none => none

theorem readBody_renderFile (fs : List Frame) (acc fuel : Nat)
    (hwf : ∀ f ∈ fs, wfFrame f) (hfuel : (renderFile fs).length ≤ fuel) :
    readBody fuel (renderFile fs) acc = readFramesSpec fs acc := by
  induction fs generalizing acc fuel with
  | nil => cases fuel <;> simp [renderFile, readBody, readFramesSpec]
  | cons f fs ih =>
    have hwff := hwf f (by simp)
    have hwfs : ∀ g ∈ fs, wfFrame g := fun g hg => hwf g (by simp [hg])
    cases f with
    | record p =>
      have hlen : p.length < 256 ^ 8 := by
        have : (256 : Nat) ^ 8 = B64 := by norm_num [B64]
        have := hwff
        unfold wfFrame at this
        omega
      have hfile : renderFile (Frame.record p :: fs) =
          0 :: (encLE 8 p.length ++ (p ++ renderFile fs)) := by
        simp [renderFile, renderFrame]
      rw [hfile] at hfuel ⊢
      obtain ⟨fuel', rfl⟩ : ∃ fuel', fuel = fuel' + 1 := by
        cases fuel with
        | zero => simp at hfuel
        | succ n => exact ⟨n, rfl⟩
      have hfuel' : (renderFile fs).length ≤ fuel' := by
        simp [encLE_length] at hfuel
        omega
      simp only [readBody, decLE_encLE 8 p.length _ hlen]
      rw [if_pos (by simp)]
      simp only [List.take_left, List.drop_left]
      rw [readFramesSpec]
      cases hpr : parseRecord p with
      | none => simp
      | some pr =>
        obtain ⟨r, leftover⟩ := pr
        cases leftover with
        | nil => simp [ih (hashBytes acc p) fuel' hwfs hfuel']
        | cons x xs => simp
    | cp i s =>
      obtain ⟨hi, hs⟩ : i < B64 ∧ s < B64 := hwff
      have h8 : (256 : Nat) ^ 8 = B64 := by norm_num [B64]
      have hfile : renderFile (Frame.cp i s :: fs) =
          1 :: (encLE 8 i ++ (encLE 8 s ++ renderFile fs)) := by
        simp [renderFile, renderFrame]
      rw [hfile] at hfuel ⊢
      obtain ⟨fuel', rfl⟩ : ∃ fuel', fuel = fuel' + 1 := by
        cases fuel with
        | zero => simp at hfuel
        | succ n => exact ⟨n, rfl⟩
      have hfuel' : (renderFile fs).length ≤ fuel' := by
        simp [encLE_length] at hfuel
        omega
      simp only [readBody, decLE_encLE 8 i _ (by omega), decLE_encLE 8 s _ (by omega)]
      rw [readFramesSpec]
      simp [ih acc fuel' hwfs hfuel']

/-- The serialized-record byte stream of a record sequence, in file order:
the stream the file checksum is computed over (§3 DataFileDescriptor). -/
def payloadBytes (rs : List SRecord) : List Nat := rs.flatMap serializeRecord

/-- The checkpoint observations produced when a Reader started with
accumulator `b` consumes the file a Writer produced starting from
accumulator `a` (the two coincide for an untouched file). -/
def obsOf (k : Nat) : List SRecord → Nat → Nat → Nat → List CheckObs
  | [], _, _, _ => []
  | r :: rs, idx, a, b =>
    let p := serializeRecord r
    (if k ≠ 0 ∧ (idx + 1) % k = 0 then [⟨idx + 1, hashBytes a p, hashBytes b p⟩] else []) ++
      obsOf k rs (idx + 1) (hashBytes a p) (hashBytes b p)

theorem readFramesSpec_cons_record (p : List Nat) (fs : List Frame) (b : Nat) (r : SRecord)
    (hp : parseRecord p = some (r, [])) :
    readFramesSpec (Frame.record p :: fs) b =
      match readFramesSpec fs (hashBytes b p) with
      | some res => some ⟨r :: res.records, res.checkObs, res.digest⟩
      | none => none := by
  simp only [readFramesSpec, hp]

theorem readFramesSpec_cons_cp (i s : Nat) (fs : List Frame) (b : Nat) :
    readFramesSpec (Frame.cp i s :: fs) b =
      match readFramesSpec fs b with
      | some res => some ⟨res.records, ⟨i, s, b⟩ :: res.checkObs, res.digest⟩
      | none => none := by
  simp only [readFramesSpec]

/-- Reading a Writer-produced frame stream with Reader accumulator `b`
recovers the records exactly, observes the checkpoints of `obsOf`, and ends
with the digest of the serialized-record byte stream. -/
theorem readFramesSpec_writeScript (k : Nat) (rs : List SRecord) (idx a b : Nat)
    (hwf : ∀ r ∈ rs, wfRecord r) :
    readFramesSpec (writeScript k rs idx a) b =
      some ⟨rs, obsOf k rs idx a b, hashBytes b (payloadBytes rs)⟩ := by
  induction rs generalizing idx a b with
  | nil => simp [writeScript, readFramesSpec, payloadBytes, obsOf, hashBytes]
  | cons r rs ih =>
    have hr := hwf r (by simp)
    have hrs : ∀ x ∈ rs, wfRecord x := fun x hx => hwf x (by simp [hx])
    have hparse : parseRecord (serializeRecord r) = some (r, []) := by
      simpa using parseRecord_serializeRecord r [] hr
    simp only [writeScript, obsOf, payloadBytes, List.flatMap_cons]
    by_cases hc : k ≠ 0 ∧ (idx + 1) % k = 0
    · rw [if_pos hc, if_pos hc, List.singleton_append,
        readFramesSpec_cons_record _ _ _ _ hparse, readFramesSpec_cons_cp,
        ih (idx + 1) (hashBytes a (serializeRecord r)) (hashBytes b (serializeRecord r)) hrs,
        hashBytes_append]
      simp [payloadBytes]
    · rw [if_neg hc, if_neg hc, List.nil_append, List.nil_append,
        readFramesSpec_cons_record _ _ _ _ hparse,
        ih (idx + 1) (hashBytes a (serializeRecord r)) (hashBytes b (serializeRecord r)) hrs,
        hashBytes_append]
      simp [payloadBytes]

/-- Every checkpoint observation corresponds to a prefix of the record
stream: the embedded state is the `a`-run over that prefix and the computed
state the `b`-run over the same prefix; its index is the prefix length. -/
theorem obsOf_mem (k : Nat) (rs : List SRecord) (idx a b : Nat) (o : CheckObs)
    (ho : o ∈ obsOf k rs idx a b) :
    ∃ n, 0 < n ∧ n ≤ rs.length ∧ o.idx = idx + n ∧
      o.embedded = hashBytes a (payloadBytes (rs.take n)) ∧
      o.computed = hashBytes b (payloadBytes (rs.take n)) := by
  induction rs generalizing idx a b with
  | nil => simp [obsOf] at ho
  | cons r rs ih =>
    simp only [obsOf, List.mem_append] at ho
    cases ho with
    | inl h =>
      refine ⟨1, by omega, by simp, ?_, ?_, ?_⟩ <;>
        · by_cases hc : k ≠ 0 ∧ (idx + 1) % k = 0
          · rw [if_pos hc] at h
            simp only [List.mem_singleton] at h
            subst h
            simp [payloadBytes]
          · rw [if_neg hc] at h
            simp at h
    | inr h =>
      obtain ⟨n, hn0, hnl, hoidx, hemb, hcomp⟩ := ih (idx + 1) _ _ h
      refine ⟨n + 1, by omega, by simp; omega, by omega, ?_, ?_⟩
      · rw [hemb]
        simp [payloadBytes, hashBytes_append]
      · rw [hcomp]
        simp [payloadBytes, hashBytes_append]

/-- When Reader and Writer accumulators agree, every checkpoint observation
matches. -/
theorem obsOf_clean (k : Nat) (rs : List SRecord) (idx a : Nat) (o : CheckObs)
    (ho : o ∈ obsOf k rs idx a a) : o.computed = o.embedded := by
  obtain ⟨n, _, _, _, hemb, hcomp⟩ := obsOf_mem k rs idx a a o ho
  rw [hemb, hcomp]

/-- When Reader and Writer accumulators differ (below the modulus), every
checkpoint observation mismatches. -/
theorem obsOf_shifted (k : Nat) (rs : List SRecord) (idx a b : Nat) (o : CheckObs)
    (ha : a < B64) (hb : b < B64) (hab : a ≠ b)
    (ho : o ∈ obsOf k rs idx a b) : o.computed ≠ o.embedded := by
  obtain ⟨n, _, _, _, hemb, hcomp⟩ := obsOf_mem k rs idx a b o ho
  rw [hemb, hcomp, hashBytes_eq_sum a _ ha, hashBytes_eq_sum b _ hb]
  intro hEq
  apply hab
  have h1 : (a + (payloadBytes (rs.take n)).sum) % B64 = (b + (payloadBytes (rs.take n)).sum) % B64 :=
    hEq.symm
  have h2 : (a + (payloadBytes (rs.take n)).sum) % B64 =
      (b + (payloadBytes (rs.take n)).sum) % B64 → a % B64 = b % B64 := by
    intro h
    have := Nat.ModEq.add_right_cancel' (payloadBytes (rs.take n)).sum
      (show Nat.ModEq B64 (a + (payloadBytes (rs.take n)).sum)
        (b + (payloadBytes (rs.take n)).sum) from h)
    exact this
  have := h2 h1
  rwa [Nat.mod_eq_of_lt ha, Nat.mod_eq_of_lt hb] at this

/-- Lower-case hex digit for a nibble value. -/
def hexDigit (n : Nat) : Char := if n < 10 then Char.ofNat (48 + n) else Char.ofNat (87 + n)

/-- Big-endian lower-case hex rendering of a number to `w` nibbles (§4.1:
the digest is rendered as big-endian hex). -/
def hexRender : Nat → Nat → List Char
  | 0, _ => []
  | w + 1, n => hexDigit (n / 16 ^ w % 16) :: hexRender w n

/-- Numeric value of a hex digit character. -/
def hexVal (c : Char) : Nat := if c.toNat ≥ 87 then c.toNat - 87 else c.toNat - 48

theorem hexVal_hexDigit (d : Nat) (h : d < 16) : hexVal (hexDigit d) = d := by
  interval_cases d <;> decide

theorem mod_mul_decomp (n a b : Nat) :
    n % (a * b) = n / a % b * a + n % a := by
  have h1 : n % (a * b) / a = n / a % b := Nat.mod_mul_right_div_self n a b
  have h2 : n % (a * b) % a = n % a := Nat.mod_mod_of_dvd n ⟨b, rfl⟩
  calc n % (a * b) = a * (n % (a * b) / a) + n % (a * b) % a := (Nat.div_add_mod _ a).symm
    _ = a * (n / a % b) + n % a := by rw [h1, h2]
    _ = n / a % b * a + n % a := by ring

theorem hexRender_decode (w : Nat) (n : Nat) (a : Nat) :
    (hexRender w n).foldl (fun acc c => acc * 16 + hexVal c) a = a * 16 ^ w + n % 16 ^ w := by
  induction w generalizing a with
  | zero => simp [hexRender, Nat.mod_one]
  | succ w ih =>
    simp only [hexRender, List.foldl_cons]
    rw [hexVal_hexDigit _ (Nat.mod_lt _ (by positivity)), ih, pow_succ,
      mod_mul_decomp n (16 ^ w) 16]
    ring

/-- Hex rendering is injective below the rendered width. -/
theorem hexRender_injective (w : Nat) (m n : Nat) (hm : m < 16 ^ w) (hn : n < 16 ^ w)
    (h : hexRender w m = hexRender w n) : m = n := by
  have hd := congrArg (fun l => l.foldl (fun acc c => acc * 16 + hexVal c) 0) h
  simp only [hexRender_decode] at hd
  rwa [Nat.mod_eq_of_lt hm, Nat.mod_eq_of_lt hn, Nat.zero_mul, Nat.zero_add,
    Nat.zero_add] at hd

/-- Decimal digit character. -/
def digitChar (d : Nat) : Char := Char.ofNat (48 + d)

/-- Little-endian decimal digits, with an explicit fuel bound (structural
recursion so that concrete values reduce definitionally). -/
def decDigitsLEAux : Nat → Nat → List Nat
  | 0, _ => []
  | _ + 1, 0 => []
  | fuel + 1, n + 1 => (n + 1) % 10 :: decDigitsLEAux fuel ((n + 1) / 10)

/-- Little-endian decimal digits of a positive number (empty for zero). -/
def decDigitsLE (n : Nat) : List Nat := decDigitsLEAux n n

/-- Recombine little-endian decimal digits. -/
def decDigitsVal : List Nat → Nat
  | [] => 0
  | d :: ds => d + 10 * decDigitsVal ds

theorem decDigitsLEAux_val (fuel n : Nat) (h : n ≤ fuel) :
    decDigitsVal (decDigitsLEAux fuel n) = n := by
  induction fuel generalizing n with
  | zero =>
    have : n = 0 := by omega
    simp [decDigitsLEAux, decDigitsVal, this]
  | succ fuel ih =>
    match n with
    | 0 => simp [decDigitsLEAux, decDigitsVal]
    | m + 1 =>
      rw [decDigitsLEAux, decDigitsVal, ih ((m + 1) / 10) (by omega)]
      omega

theorem decDigitsVal_decDigitsLE (n : Nat) : decDigitsVal (decDigitsLE n) = n :=
  decDigitsLEAux_val n n le_rfl

theorem decDigitsLEAux_lt (fuel n : Nat) : ∀ d ∈ decDigitsLEAux fuel n, d < 10 := by
  induction fuel generalizing n with
  | zero => simp [decDigitsLEAux]
  | succ fuel ih =>
    match n with
    | 0 => simp [decDigitsLEAux]
    | m + 1 =>
      rw [decDigitsLEAux]
      intro d hd
      rcases List.mem_cons.1 hd with h | h
      · omega
      · exact ih ((m + 1) / 10) d h

theorem decDigitsLE_lt (n : Nat) : ∀ d ∈ decDigitsLE n, d < 10 :=
  decDigitsLEAux_lt n n

/-- Decimal rendering of a natural number. -/
def natToString (n : Nat) : String :=
  if n = 0 then "0" else ⟨((decDigitsLE n).reverse.map digitChar)⟩

theorem digitChar_injOn (d e : Nat) (hd : d < 10) (he : e < 10)
    (h : digitChar d = digitChar e) : d = e := by
  revert h
  interval_cases d <;> interval_cases e <;> decide

theorem map_digitChar_inj (l1 l2 : List Nat) (h1 : ∀ d ∈ l1, d < 10) (h2 : ∀ d ∈ l2, d < 10)
    (h : l1.map digitChar = l2.map digitChar) : l1 = l2 := by
  induction l1 generalizing l2 with
  | nil => cases l2 <;> simp_all
  | cons a l ih =>
    cases l2 with
    | nil => simp_all
    | cons b l' =>
      simp only [List.map_cons, List.cons.injEq] at h
      have ha := h1 a (by simp)
      have hb := h2 b (by simp)
      have := digitChar_injOn a b ha hb h.1
      rw [this, ih l' (fun d hd => h1 d (by simp [hd])) (fun d hd => h2 d (by simp [hd])) h.2]

theorem natToString_injective (m n : Nat) (h : natToString m = natToString n) : m = n := by
  by_cases hm : m = 0 <;> by_cases hn : n = 0
  · omega
  · exfalso
    rw [natToString, natToString, if_pos hm, if_neg hn] at h
    have hdata : ("0" : String).data = ((decDigitsLE n).reverse.map digitChar) :=
      congrArg String.data h
    have h9 : decDigitsVal (decDigitsLE n) = n := decDigitsVal_decDigitsLE n
    cases hrev : (decDigitsLE n).reverse with
    | nil =>
      have : decDigitsLE n = [] := by
        have := congrArg List.reverse hrev
        simpa using this
      rw [this] at h9
      exact hn (by simpa [decDigitsVal] using h9.symm)
    | cons d ds =>
      rw [hrev] at hdata
      have hlen := congrArg List.length hdata
      simp at hlen
      have : decDigitsLE n = [d] := by
        have := congrArg List.reverse hrev
        simp at this
        rw [this]
        cases ds with
        | nil => simp
        | cons x xs => simp at hlen
      rw [this] at h9
      have hd0 : d = 0 := by
        have hchar : digitChar d = '0' := by
          have hpair : digitChar d = '0' ∧ ds = [] := by simpa using hdata.symm
          exact hpair.1
        exact digitChar_injOn d 0 (decDigitsLE_lt n d (by rw [this]; simp)) (by omega) hchar
      rw [hd0] at h9
      simp [decDigitsVal] at h9
      exact hn h9.symm
  · exfalso
    rw [natToString, natToString, if_neg hm, if_pos hn] at h
    have hdata : ((decDigitsLE m).reverse.map digitChar) = ("0" : String).data :=
      congrArg String.data h
    have h9 : decDigitsVal (decDigitsLE m) = m := decDigitsVal_decDigitsLE m
    cases hrev : (decDigitsLE m).reverse with
    | nil =>
      have : decDigitsLE m = [] := by
        have := congrArg List.reverse hrev
        simpa using this
      rw [this] at h9
      exact hm (by simpa [decDigitsVal] using h9.symm)
    | cons d ds =>
      rw [hrev] at hdata
      have hlen := congrArg List.length hdata
      simp at hlen
      have : decDigitsLE m = [d] := by
        have := congrArg List.reverse hrev
        simp at this
        rw [this]
        cases ds with
        | nil => simp
        | cons x xs => simp at hlen
      rw [this] at h9
      have hd0 : d = 0 := by
        have hchar : digitChar d = '0' := by
          have hpair : digitChar d = '0' ∧ ds = [] := by simpa using hdata
          exact hpair.1
        exact digitChar_injOn d 0 (decDigitsLE_lt m d (by rw [this]; simp)) (by omega) hchar
      rw [hd0] at h9
      simp [decDigitsVal] at h9
      exact hm h9.symm
  · rw [natToString, natToString, if_neg hm, if_neg hn] at h
    have hdata := congrArg String.data h
    simp only [String.data] at hdata
    have hdig : decDigitsLE m = decDigitsLE n := by
      have hmap : (decDigitsLE m).reverse.map digitChar = (decDigitsLE n).reverse.map digitChar := hdata
      have hrev : (decDigitsLE m).reverse = (decDigitsLE n).reverse :=
        map_digitChar_inj _ _ (fun d hd => decDigitsLE_lt m d (by simpa using hd))
          (fun d hd => decDigitsLE_lt n d (by simpa using hd)) hmap
      have := congrArg List.reverse hrev
      simpa using this
    calc m = decDigitsVal (decDigitsLE m) := (decDigitsVal_decDigitsLE m).symm
      _ = decDigitsVal (decDigitsLE n) := by rw [hdig]
      _ = n := decDigitsVal_decDigitsLE n

/-- DataFileDescriptor (§3): filename, partition, lower-case hex digest over
the entire file's serialized-record byte stream, record count and the source
offset range (absent when the file is empty). -/
structure DataFileDescriptor where
  filename : String
  partition : Nat
  checksum_hex : List Char
  record_count : Nat
  start_offset : Option Nat
  end_offset : Option Nat
  deriving Repr, DecidableEq

/-- BackupMetadata (§3). -/
structure Metadata where
  version : Nat
  tool_name : String
  tool_version : String
  started_at : Nat
  finished_at : Nat
  topic_name : String
  topic_id : Option String
  partition_count : Nat
  checksum_algorithm : String
  data_files : List DataFileDescriptor
  deriving Repr, DecidableEq

/-- The data file name for one partition: `<topic>:<partition>.data` (§6). -/
def dataFileName (topic : String) (p : Nat) : String :=
  topic ++ ":" ++ natToString p ++ ".data"

/-- The metadata file name: `<topic>.metadata` (§6). -/
def metadataFileName (topic : String) : String := topic ++ ".metadata"

/-- The tool name baked into this build. -/
def toolName : String := "karapace"

/-- The tool version baked into this build. -/
def toolVersion : String := "3.4.6"

/-- The only checksum algorithm registered in this build (§4.1). -/
def checksumRegistry : List String := ["xxhash3_64_be"]

/-- Modelled from the spec: finalizing one Writer run (§4.3) — the
descriptor reporting filename, partition, final digest in big-endian hex,
record count and source offset range. -/
def finalizeDescriptor (topic : String) (p : Nat) (rs : List SRecord) : DataFileDescriptor where
  filename := dataFileName topic p
  partition := p
  checksum_hex := hexRender 16 (hashBytes hashSeed (payloadBytes rs))
  record_count := rs.length
  start_offset := rs.head?.map SRecord.offset
  end_offset := rs.getLast?.map SRecord.offset

/-- The result of a successful backup run: the files written into the
`topic-<name>` directory (name and content pairs, metadata first) and the
assembled metadata value. -/
structure BackupResult where
  directory : List (String × List Nat)
  metadata : Metadata
  deriving Repr

/-- A simple byte serialization of a string (for metadata file contents). -/
def encString (s : String) : List Nat := encBytes (s.data.map Char.toNat)

/-- Modelled from the spec: the structural byte prefix identifying a V3
metadata file (§9: version sniffing is an ordered set of structural
predicates over a byte prefix). -/
def v3Magic : List Nat := [75, 65, 80, 51]

/-- Modelled from the spec: the lightweight structured header that opens a
V2 backup log (§4.2). -/
def v2Marker : List Nat := [47, 86, 50, 10]

/-- Modelled from the spec: the byte-exact, version-tagged serialization of
BackupMetadata (§4.2).  Deterministic in the field values. -/
def encodeMetadata (m : Metadata) : List Nat :=
  v3Magic ++ encLE 8 m.version ++ encString m.tool_name ++ encString m.tool_version ++
    encLE 8 m.started_at ++ encLE 8 m.finished_at ++ encString m.topic_name ++
    (match m.topic_id with | none => [0] | some t => 1 :: encString t) ++
    encLE 8 m.partition_count ++ encString m.checksum_algorithm ++
    encLE 8 m.data_files.length ++
    m.data_files.flatMap (fun d =>
      encString d.filename ++ encLE 8 d.partition ++ encBytes (d.checksum_hex.map Char.toNat) ++
        encLE 8 d.record_count ++ encOptBytes (d.start_offset.map (fun n => encLE 8 n)) ++
        encOptBytes (d.end_offset.map (fun n => encLE 8 n)))

/-- Modelled from the spec: the backup orchestrator (§4.6).  `source p` is
the record sequence fetched for partition `p`; `cadence` the checkpoint
cadence handed to each Writer; `t0` the wall-clock instant captured before
the first partition and `dur` the (non-negative) time the run takes, the
clock having advanced strictly by the final capture.  One Writer runs per
partition; partitions that had no record fetched leave no data file.  The
returned directory is the complete, final content of `topic-<name>` —
exactly one metadata file plus one data file per non-empty partition, all
temp artifacts removed. -/
def backup (topic : String) (pc : Nat) (source : Nat → List SRecord) (cadence : Nat)
    (t0 dur : Nat) : BackupResult :=
  let parts := (List.range pc).filter (fun p => !(source p).isEmpty)
  let descriptors := parts.map (fun p => finalizeDescriptor topic p (source p))
  let meta : Metadata :=
    { version := 3
      tool_name := toolName
      tool_version := toolVersion
      started_at := t0
      finished_at := t0 + dur + 1
      topic_name := topic
      topic_id := none
      partition_count := pc
      checksum_algorithm := "xxhash3_64_be"
      data_files := descriptors }
  { directory :=
      (metadataFileName topic, encodeMetadata meta) ::
        parts.map (fun p => (dataFileName topic p, writeDataFile cadence (source p)))
    metadata := meta }

/-- The two verification levels (§4.5). -/
inductive VerifyLevel where
  | file
  | record
  deriving Repr, DecidableEq

/-- Per-file integrity verdict; `notIntact` carries the detail messages the
record-level check prints beneath the verdict line. -/
inductive FileIntegrity where
  | intact
  | notIntact (messages : List String)
  deriving Repr, DecidableEq

/-- The generic whole-file mismatch message of the record-level check, as
pinned by `TestVerify.test_can_refute_record_integrity`. -/
def genericMismatchMessage : String :=
  "InvalidChecksum: Found checksum mismatch after reading full data file."

/-- Modelled from the spec: the checkpoint-localized mismatch message of the
record-level check (§4.5 localizes the mismatch to the checkpoint interval
in which it occurred; the exact wording is not pinned by any test). -/
def checkpointMismatchMessage (c : Nat) : String :=
  "InvalidChecksum: Found checksum mismatch in checkpoint interval ending at record " ++
    natToString c ++ "."

/-- Modelled from the spec: file-level verify (§4.5).  Consumes the entire
file once, recomputes the final digest and compares it with the descriptor's
`checksum_hex`; never inspects checkpoints.  An unreadable file is reported
as not intact. -/
def verifyFileLevel (bytes : List Nat) (d : DataFileDescriptor) : FileIntegrity :=
  match readDataFile bytes with
  | none => .notIntact []
  | some res =>
    if hexRender 16 res.digest = d.checksum_hex then .intact else .notIntact []

/-- Modelled from the spec: record-level verify (§4.5).  Also consumes the
entire file, but replays checkpoints: the first checkpoint whose embedded
state disagrees with the recomputed state is reported with a localized
message; otherwise the whole-file digest comparison is surfaced with the
generic message. -/
def verifyRecordLevel (bytes : List Nat) (d : DataFileDescriptor) : FileIntegrity :=
  match readDataFile bytes with
  | none => .notIntact []
  | some res =>
    match res.checkObs.find? (fun o => o.computed != o.embedded) with
    | some o => .notIntact [checkpointMismatchMessage o.idx]
    | none =>
      if hexRender 16 res.digest = d.checksum_hex then .intact
      else .notIntact [genericMismatchMessage]

/-- Verify one referenced data file at the requested level, looking its bytes
up in the backup directory. -/
def verifyDataFile (level : VerifyLevel) (dir : List (String × List Nat))
    (d : DataFileDescriptor) : FileIntegrity :=
  match dir.lookup d.filename with
  | none => .notIntact []
  | some bytes =>
    match level with
    | .file => verifyFileLevel bytes d
    | .record => verifyRecordLevel bytes d

/-- The aggregate verify report: one verdict per referenced data file, and
the command exit status (0 iff all pass). -/
structure VerifyReport where
  results : List (String × FileIntegrity)
  exitCode : Nat
  deriving Repr

/-- Modelled from the spec: verify over a V3 backup (§4.5, §6): every data
file referenced by the metadata is checked; exit status 0 iff all pass. -/
def verifyBackup (level : VerifyLevel) (m : Metadata) (dir : List (String × List Nat)) :
    VerifyReport :=
  let results := m.data_files.map (fun d => (d.filename, verifyDataFile level dir d))
  { results
    exitCode := if results.all (fun r => r.2 == FileIntegrity.intact) then 0 else 1 }

/-- The sniffed on-disk format version (§4.2). -/
inductive SniffedVersion where
  | V1
  | V2
  | V3
  deriving Repr, DecidableEq

/-- Modelled from the spec: version sniffing (§4.2, §9): an ordered set of
structural predicates over the leading bytes — the V3 structured header, else
the V2 lightweight header, else the bare V1 record log. -/
def sniffVersion (bytes : List Nat) : SniffedVersion :=
  if v3Magic.isPrefixOf bytes then .V3
  else if v2Marker.isPrefixOf bytes then .V2
  else .V1

/-- Decode a length-prefixed string. -/
def decString (input : List Nat) : Option (String × List Nat) :=
  match decBytes input with
  | none => none
  | some (cs, rest) => some (⟨cs.map Char.ofNat⟩, rest)

/-- Decode one serialized DataFileDescriptor. -/
def decDescriptor (input : List Nat) : Option (DataFileDescriptor × List Nat) :=
  match decString input with
  | none => none
  | some (filename, r1) =>
    match decLE 8 r1 with
    | none => none
    | some (partition, r2) =>
      match decBytes r2 with
      | none => none
      | some (hex, r3) =>
        match decLE 8 r3 with
        | none => none
        | some (record_count, r4) =>
          match decOptBytes r4 with
          | none => none
          | some (so, r5) =>
            match decOptBytes r5 with
            | none => none
            | some (eo, r6) =>
              some (⟨filename, partition, hex.map Char.ofNat, record_count,
                (so.bind (fun bs => (decLE 8 bs).map Prod.fst)),
                (eo.bind (fun bs => (decLE 8 bs).map Prod.fst))⟩, r6)

/-- Decode `k` serialized descriptors. -/
def decDescriptors : Nat → List Nat → Option (List DataFileDescriptor × List Nat)
  | 0, input => some ([], input)
  | k + 1, input =>
    match decDescriptor input with
    | none => none
    | some (d, rest) =>
      match decDescriptors k rest with
      | none => none
      | some (ds, r2) => some (d :: ds, r2)

/-- Modelled from the spec: `read_metadata` (§4.2), defined only for V3
inputs. -/
def decodeMetadata (bytes : List Nat) : Option Metadata :=
  if v3Magic.isPrefixOf bytes then
    let body := bytes.drop v3Magic.length
    match decLE 8 body with
    | none => none
    | some (version, r1) =>
      match decString r1 with
      | none => none
      | some (tool_name, r2) =>
        match decString r2 with
        | none => none
        | some (tool_version, r3) =>
          match decLE 8 r3 with
          | none => none
          | some (started_at, r4) =>
            match decLE 8 r4 with
            | none => none
            | some (finished_at, r5) =>
              match decString r5 with
              | none => none
              | some (topic_name, r6) =>
                match r6 with
                | [] => none
                | 0 :: r7 =>
                  decodeMetadataTail version tool_name tool_version started_at finished_at
                    topic_name none r7
                | 1 :: r7 =>
                  match decString r7 with
                  | none => none
                  | some (tid, r8) =>
                    decodeMetadataTail version tool_name tool_version started_at finished_at
                      topic_name (some tid) r8
                | _ => none
  else none
where
  /-- Shared tail of the metadata parser after the optional topic id. -/
  decodeMetadataTail (version : Nat) (tool_name tool_version : String)
      (started_at finished_at : Nat) (topic_name : String) (topic_id : Option String)
      (input : List Nat) : Option Metadata :=
    match decLE 8 input with
    | none => none
    | some (partition_count, r1) =>
      match decString r1 with
      | none => none
      | some (checksum_algorithm, r2) =>
        match decLE 8 r2 with
        | none => none
        | some (n, r3) =>
          match decDescriptors n r3 with
          | none => none
          | some (ds, r4) =>
            match r4 with
            | [] =>
              some ⟨version, tool_name, tool_version, started_at, finished_at, topic_name,
                topic_id, partition_count, checksum_algorithm, ds⟩
            | _ :: _ => none

/-- Output of a command-style invocation: exit status, standard-output lines
and diagnostic-stream lines. -/
structure CmdOutput where
  exitCode : Nat
  stdout : List String
  stderr : List String
  deriving Repr, DecidableEq

/-- The message verify prints for a legacy input, as pinned by
`TestVerify.test_gives_non_successful_exit_code_for_legacy_backup_format`. -/
def legacyVerifyMessage (v : String) : String :=
  "Only backups using format V3 can be verified, found " ++ v ++ "."

/-- The per-file stdout lines of the verify command, as pinned by the
`TestVerify` tests. -/
def integrityLines (filename : String) (r : FileIntegrity) : List String :=
  match r with
  | .intact => ["Integrity of " ++ filename ++ " is intact."]
  | .notIntact msgs =>
    ("Integrity of " ++ filename ++ " is not intact!") :: msgs.map (fun s => "    " ++ s)

/-- Modelled from the spec: the verify command (§6): sniffs the input's
format version; legacy inputs fail immediately with a message naming the
detected version and produce no standard output; V3 inputs are parsed and
every referenced data file checked. -/
def verifyCmd (level : VerifyLevel) (bytes : List Nat) (dir : List (String × List Nat)) :
    CmdOutput :=
  match sniffVersion bytes with
  | .V1 => ⟨1, [], [legacyVerifyMessage "V1"]⟩
  | .V2 => ⟨1, [], [legacyVerifyMessage "V2"]⟩
  | .V3 =>
    match decodeMetadata bytes with
    | none => ⟨1, [], ["FormatError: failed to parse metadata"]⟩
    | some m =>
      let rep := verifyBackup level m dir
      ⟨rep.exitCode,
        rep.results.flatMap (fun r => integrityLines r.1 r.2) ++
          [if rep.exitCode = 0 then "✅ Verified " ++ natToString rep.results.length ++
            " data files in backup OK."
           else "💥 Failed to verify integrity of some data files."],
        []⟩

/-- The flat record Inspect renders for one data file (§6). -/
structure DataFileJson where
  filename : String
  partition : Nat
  checksum_hex : List Char
  record_count : Nat
  start_offset : Option Nat
  end_offset : Option Nat
  deriving Repr, DecidableEq

/-- The flat record Inspect renders for a V3 metadata file (§6). -/
structure InspectJson where
  version : Nat
  tool_name : String
  tool_version : String
  started_at : Nat
  finished_at : Nat
  topic_name : String
  topic_id : Option String
  partition_count : Nat
  checksum_algorithm : String
  data_files : List DataFileJson
  deriving Repr, DecidableEq

/-- The warning Inspect writes for an unregistered checksum algorithm, as
pinned by `TestInspect.test_can_inspect_v3_with_future_checksum_algorithm`. -/
def unknownAlgorithmWarning : String :=
  "Warning! This file has an unknown checksum algorithm and cannot be restored with this version of Karapace."

/-- Result of an Inspect invocation on a V3 metadata value. -/
structure InspectResult where
  exitCode : Nat
  output : InspectJson
  warnings : List String
  deriving Repr, DecidableEq

/-- Modelled from the spec: Inspect over parsed V3 metadata (§6).  An
unregistered checksum algorithm still succeeds: the field is rendered as
`"unknown"`, the remaining fields normally, and a human-readable warning goes
to the diagnostic stream. -/
def inspectMetadata (m : Metadata) : InspectResult :=
  let known := checksumRegistry.contains m.checksum_algorithm
  { exitCode := 0
    output :=
      { version := m.version
        tool_name := m.tool_name
        tool_version := m.tool_version
        started_at := m.started_at
        finished_at := m.finished_at
        topic_name := m.topic_name
        topic_id := m.topic_id
        partition_count := m.partition_count
        checksum_algorithm := if known then m.checksum_algorithm else "unknown"
        data_files := m.data_files.map (fun d =>
          ⟨d.filename, d.partition, d.checksum_hex, d.record_count, d.start_offset,
            d.end_offset⟩) }
    warnings := if known then [] else [unknownAlgorithmWarning] }

/-- A record as re-consumed from the restore target topic: the destination
log has assigned its own `offset`. -/
structure TargetRecord where
  key : Option (List Nat)
  value : Option (List Nat)
  headers : List (List Nat × List Nat)
  timestamp : Nat
  timestamp_type : Nat
  offset : Nat
  deriving Repr, DecidableEq

/-- Modelled from the spec: replaying records onto an empty target partition
(§4.6): key, value, headers (order and content), timestamp and timestamp
type are preserved exactly; the destination log assigns its own offsets
starting at 0. -/
def appendToTarget (rs : List SRecord) : List TargetRecord :=
  rs.enum.map (fun p => ⟨p.2.key, p.2.value, p.2.headers, p.2.timestamp, p.2.timestamp_type, p.1⟩)

/-- Modelled from the spec: restoring one descriptor (§4.6): open a Reader
on the referenced data file and replay every record to the target
topic/partition. -/
def restorePartition (dir : List (String × List Nat)) (d : DataFileDescriptor) :
    Option (List TargetRecord) :=
  match dir.lookup d.filename with
  | none => none
  | some bytes =>
    match readDataFile bytes with
    | none => none
    | some res => some (appendToTarget res.records)

/-! Python string primitives used by `karapace/protobuf/dependency.py`,
modelled over `List Char`. -/

/-- Python `str.find` for a single character: first index, or -1. -/
def pyFindChar (s : List Char) (c : Char) : Int :=
  match s.findIdx? (fun x => x == c) with
  | some i => (i : Int)
  | none => -1

/-- Python `str.rfind` for a single character: last index, or -1. -/
def pyRfindChar (s : List Char) (c : Char) : Int :=
  match s.reverse.findIdx? (fun x => x == c) with
  | some i => (s.length : Int) - 1 - (i : Int)
  | none => -1

/-- Clamp one slice bound the way Python's `s[a:b]` does. -/
def pySliceIdx (len : Nat) (x : Int) : Nat :=
  if x < 0 then (x + len).toNat else min x.toNat len

/-- Python `s[a:b]` (step 1), with negative-index semantics. -/
def pySlice (s : List Char) (a b : Int) : List Char :=
  (s.take (pySliceIdx s.length b)).drop (pySliceIdx s.length a)

/-- Python `str.strip` whitespace set (ASCII part). -/
def pyIsSpace (c : Char) : Bool :=
  c == ' ' || c == '\t' || c == '\n' || c == '\r' || c == '\x0b' || c == '\x0c'

/-- Python `str.strip`. -/
def pyStrip (s : List Char) : List Char :=
  ((s.dropWhile pyIsSpace).reverse.dropWhile pyIsSpace).reverse

/-- Python `a or b` over optional strings: `None` and the empty string are
falsy. -/
def pyOrStr (a b : Option (List Char)) : Option (List Char) :=
  match a with
  | none => b
  | some s => if s.isEmpty then b else some s

/-- `DependencyVerifierResult` from `karapace/dependency.py` (constructed
with `result` and an optional `message`). -/
structure DependencyVerifierResult where
  result : Bool
  message : Option (List Char)
  deriving Repr, DecidableEq

/-- The state of `ProtobufDependencyVerifier`
(`karapace/protobuf/dependency.py`): three insertion-ordered lists. -/
structure ProtobufDependencyVerifier where
  declared_types : List (List Char)
  used_types : List (List Char)
  import_path : List (List Char)
  deriving Repr, DecidableEq

/-- The external lookup tables `DependenciesHardcoded.index`,
`KnownDependency.index_simple` and `KnownDependency.index`
(from `karapace/protobuf/known_dependency.py`, outside this embedding),
treated as parameters. -/
structure KnownIndexes where
  hardcoded : List Char → Bool
  index_simple : List Char → Option (List Char)
  index : List Char → Option (List Char)

namespace ProtobufDependencyVerifier

/-- `add_declared_type` from `dependency.py`. -/
def add_declared_type (v : ProtobufDependencyVerifier) (full_name : List Char) :
    ProtobufDependencyVerifier :=
  { v with declared_types := v.declared_types ++ [full_name] }

/-- `add_used_type` from `dependency.py`: a `map<...>` element type records
its key and value types, anything else is recorded as is, each prefixed with
`parent + ";"`. -/
def add_used_type (v : ProtobufDependencyVerifier) (parent element_type : List Char) :
    ProtobufDependencyVerifier :=
  if (['m', 'a', 'p', '<']).isPrefixOf element_type then
    let endIdx := pyFindChar element_type '>'
    let virgule := pyFindChar element_type ','
    let key := pySlice element_type 4 virgule
    let value := pyStrip (pySlice element_type (virgule + 1) endIdx)
    { v with
      used_types := v.used_types ++ [parent ++ ';' :: key, parent ++ ';' :: value] }
  else
    { v with used_types := v.used_types ++ [parent ++ ';' :: element_type] }

/-- `add_import` from `dependency.py`. -/
def add_import (v : ProtobufDependencyVerifier) (import_name : List Char) :
    ProtobufDependencyVerifier :=
  { v with import_path := v.import_path ++ [import_name] }

/-- `is_type_declared` from `dependency.py`. -/
def is_type_declared (used_type : List Char) (declared_index : List (List Char))
    (father_child_type used_type_with_scope : Option (List Char)) : Bool :=
  declared_index.contains used_type ||
    (match used_type_with_scope with
     | some s => declared_index.contains s
     | none => false) ||
    (match father_child_type with
     | some s => declared_index.contains s
     | none => false) ||
    declared_index.contains ('.' :: used_type)

/-- The failure message `f-string` of `verify`. -/
def undefinedTypeMessage (t : List Char) : List Char :=
  ('t' :: 'y' :: 'p' :: 'e' :: ' ' :: '"' :: t) ++
    ('"' :: ' ' :: 'i' :: 's' :: ' ' :: 'n' :: 'o' :: 't' :: ' ' ::
      'd' :: 'e' :: 'f' :: 'i' :: 'n' :: 'e' :: 'd' :: [])

/-- The loop body of `verify` from `dependency.py`, one used type at a time,
returning on the first unresolved type. -/
def verifyLoop (ki : KnownIndexes) (declared_index import_path : List (List Char)) :
    List (List Char) → DependencyVerifierResult
  | [] => ⟨true, none⟩
  | raw :: rest =>
    let delimiter := pyRfindChar raw ';'
    let used_type_with_scope :=
      if delimiter ≠ -1 then
        some (pySlice raw 0 delimiter ++ '.' :: pySlice raw (delimiter + 1) raw.length)
      else none
    let father_child_type :=
      if delimiter ≠ -1 then
        let father_delimiter := pyFindChar (pySlice raw 0 delimiter) '.'
        if father_delimiter ≠ -1 then
          some (pySlice raw 0 father_delimiter ++ '.' :: pySlice raw (delimiter + 1) raw.length)
        else none
      else none
    let used_type := if delimiter ≠ -1 then pySlice raw (delimiter + 1) raw.length else raw
    if ki.hardcoded used_type then verifyLoop ki declared_index import_path rest
    else
      let known_pkg := pyOrStr (ki.index_simple used_type) (ki.index used_type)
      if (match known_pkg with
          | some p => import_path.contains p
          | none => false) then
        verifyLoop ki declared_index import_path rest
      else if is_type_declared used_type declared_index father_child_type used_type_with_scope then
        verifyLoop ki declared_index import_path rest
      else ⟨false, some (undefinedTypeMessage used_type)⟩

/-- `verify` from `dependency.py`. -/
def verify (ki : KnownIndexes) (v : ProtobufDependencyVerifier) : DependencyVerifierResult :=
  verifyLoop ki v.declared_types v.import_path v.used_types

/-- The used type after stripping its parent scope (the suffix after the
last `;`), as `verify` rebinds `used_type`. -/
def strippedName (raw : List Char) : List Char :=
  let delimiter := pyRfindChar raw ';'
  if delimiter ≠ -1 then pySlice raw (delimiter + 1) raw.length else raw

/-- Whether `verify` resolves one recorded used type, stated per the claim:
the stripped type is hardcoded, or maps through the known-dependency indexes
to an imported package, or is declared in one of the four accepted forms. -/
def resolvesUsedType (ki : KnownIndexes) (declared_index import_path : List (List Char))
    (raw : List Char) : Bool :=
  let delimiter := pyRfindChar raw ';'
  let used_type_with_scope :=
    if delimiter ≠ -1 then
      some (pySlice raw 0 delimiter ++ '.' :: pySlice raw (delimiter + 1) raw.length)
    else none
  let father_child_type :=
    if delimiter ≠ -1 then
      let father_delimiter := pyFindChar (pySlice raw 0 delimiter) '.'
      if father_delimiter ≠ -1 then
        some (pySlice raw 0 father_delimiter ++ '.' :: pySlice raw (delimiter + 1) raw.length)
      else none
    else none
  let used_type := strippedName raw
  ki.hardcoded used_type ||
    (match pyOrStr (ki.index_simple used_type) (ki.index used_type) with
     | some p => import_path.contains p
     | none => false) ||
    is_type_declared used_type declared_index father_child_type used_type_with_scope

end ProtobufDependencyVerifier

theorem string_data_append (s t : String) : (s ++ t).data = s.data ++ t.data := rfl

theorem string_eq_of_data_eq (s t : String) (h : s.data = t.data) : s = t := by
  cases s
  cases t
  exact congrArg String.mk h

theorem dataFileName_inj (topic : String) (p q : Nat)
    (h : dataFileName topic p = dataFileName topic q) : p = q := by
  unfold dataFileName at h
  have hd := congrArg String.data h
  rw [string_data_append, string_data_append, string_data_append, string_data_append,
    string_data_append, string_data_append] at hd
  have h1 := List.append_cancel_right hd
  have h2 := List.append_cancel_left h1
  exact natToString_injective p q (string_eq_of_data_eq _ _ h2)

theorem metadataFileName_ne_dataFileName (topic : String) (p : Nat) :
    metadataFileName topic ≠ dataFileName topic p := by
  intro h
  have hd := congrArg String.data h
  unfold metadataFileName dataFileName at hd
  rw [string_data_append, string_data_append, string_data_append, string_data_append] at hd
  have h1 : (".metadata" : String).data =
      (":" : String).data ++ ((natToString p).data ++ (".data" : String).data) := by
    have hd' : topic.data ++ (".metadata" : String).data =
        topic.data ++ ((":" : String).data ++ ((natToString p).data ++ (".data" : String).data)) := by
      simp only [List.append_assoc] at hd
      exact hd
    exact List.append_cancel_left hd'
  rw [show (".metadata" : String).data = '.' :: "metadata".data from rfl,
    show (":" : String).data = [':'] from rfl] at h1
  simp at h1

theorem lookup_map_name {α β : Type} (l : List α) (name : α → String) (content : α → β)
    (p : α) (hp : p ∈ l) (hinj : ∀ q ∈ l, name q = name p → q = p) :
    (l.map (fun q => (name q, content q))).lookup (name p) = some (content p) := by
  induction l with
  | nil => simp at hp
  | cons q l ih =>
    simp only [List.map_cons, List.lookup]
    by_cases hq : name p = name q
    · have hqp : q = p := hinj q (by simp) hq.symm
      subst hqp
      simp
    · have hbeq : (name p == name q) = false := by simpa using hq
      rw [hbeq]
      apply ih
      · rcases List.mem_cons.1 hp with h | h
        · exact absurd (by rw [h]) hq
        · exact h
      · intro x hx hnx
        exact hinj x (by simp [hx]) hnx

theorem wfFrame_writeScript (k : Nat) (rs : List SRecord) (idx acc : Nat)
    (hwf : ∀ r ∈ rs, wfRecord r) (hidx : idx + rs.length < B64) (hacc : acc < B64) :
    ∀ f ∈ writeScript k rs idx acc, wfFrame f := by
  induction rs generalizing idx acc with
  | nil => simp [writeScript]
  | cons r rs ih =>
    intro f hf
    simp only [writeScript, List.mem_cons, List.mem_append] at hf
    rcases hf with hf | hf | hf
    · subst hf
      exact (hwf r (by simp)).2.2.2.2.2.2.2
    · by_cases hc : k ≠ 0 ∧ (idx + 1) % k = 0
      · rw [if_pos hc] at hf
        simp only [List.mem_singleton] at hf
        subst hf
        refine ⟨?_, hashBytes_lt acc _ hacc⟩
        simp only [List.length_cons] at hidx
        omega
      · rw [if_neg hc] at hf
        simp at hf
    · refine ih (idx + 1) (hashBytes acc _) (fun x hx => hwf x (by simp [hx])) ?_
        (hashBytes_lt acc _ hacc) f hf
      simp only [List.length_cons] at hidx
      omega

/-- Reading back an untouched data file recovers the records, all
checkpoints match, and the digest is the checksum of the serialized-record
stream. -/
theorem readDataFile_writeDataFile (k : Nat) (rs : List SRecord)
    (hwf : ∀ r ∈ rs, wfRecord r) (hlen : rs.length < B64) :
    readDataFile (writeDataFile k rs) =
      some ⟨rs, obsOf k rs 0 hashSeed hashSeed, hashBytes hashSeed (payloadBytes rs)⟩ := by
  unfold readDataFile writeDataFile
  rw [readBody_renderFile _ _ _
      (wfFrame_writeScript k rs 0 hashSeed hwf (by omega) (by norm_num [hashSeed, B64]))
      le_rfl,
    readFramesSpec_writeScript k rs 0 hashSeed hashSeed hwf]

theorem writeScript_zero (rs : List SRecord) (idx acc : Nat) :
    writeScript 0 rs idx acc = rs.map (fun r => Frame.record (serializeRecord r)) := by
  induction rs generalizing idx acc with
  | nil => rfl
  | cons r rs ih => simp [writeScript, ih]

theorem writeScript_append (k : Nat) (rs1 rs2 : List SRecord) (idx acc : Nat) :
    writeScript k (rs1 ++ rs2) idx acc =
      writeScript k rs1 idx acc ++
        writeScript k rs2 (idx + rs1.length) (hashBytes acc (payloadBytes rs1)) := by
  induction rs1 generalizing idx acc with
  | nil => simp [writeScript, payloadBytes, hashBytes]
  | cons r rs1 ih =>
    simp only [List.cons_append, writeScript, List.append_eq, ih, payloadBytes,
      List.flatMap_cons, hashBytes_append, List.length_cons, List.append_assoc]
    have harith : idx + (rs1.length + 1) = idx + 1 + rs1.length := by omega
    rw [harith]

theorem readFramesSpec_append_of (A B : List Frame) (acc : Nat) (resA resB : ReadResult)
    (hA : readFramesSpec A acc = some resA) (hB : readFramesSpec B resA.digest = some resB) :
    readFramesSpec (A ++ B) acc =
      some ⟨resA.records ++ resB.records, resA.checkObs ++ resB.checkObs, resB.digest⟩ := by
  induction A generalizing acc resA with
  | nil =>
    simp only [readFramesSpec] at hA
    obtain rfl : resA = ⟨[], [], acc⟩ := by
      cases hA
      rfl
    simpa using hB
  | cons f A ih =>
    cases f with
    | record p =>
      cases hp : parseRecord p with
      | none => simp [readFramesSpec, hp] at hA
      | some pr =>
        obtain ⟨r, leftover⟩ := pr
        cases leftover with
        | cons x xs => simp [readFramesSpec, hp] at hA
        | nil =>
          rw [readFramesSpec_cons_record _ _ _ _ hp] at hA
          cases hA' : readFramesSpec A (hashBytes acc p) with
          | none => rw [hA'] at hA; cases hA
          | some resA' =>
            rw [hA'] at hA
            obtain rfl : resA = ⟨r :: resA'.records, resA'.checkObs, resA'.digest⟩ := by
              cases hA
              rfl
            rw [List.cons_append, readFramesSpec_cons_record _ _ _ _ hp,
              ih (hashBytes acc p) resA' hA' hB]
            simp
    | cp i s =>
      rw [readFramesSpec_cons_cp] at hA
      cases hA' : readFramesSpec A acc with
      | none => rw [hA'] at hA; cases hA
      | some resA' =>
        rw [hA'] at hA
        obtain rfl : resA = ⟨resA'.records, ⟨i, s, acc⟩ :: resA'.checkObs, resA'.digest⟩ := by
          cases hA
          rfl
        rw [List.cons_append, readFramesSpec_cons_cp, ih acc resA' hA' hB]
        simp

/-- Reading a stream of bare record frames yields no checkpoint
observations, and on success the digest is the checksum of the concatenated
payloads. -/
theorem readFramesSpec_records (ps : List (List Nat)) (acc : Nat) :
    readFramesSpec (ps.map Frame.record) acc = none ∨
      ∃ recs, readFramesSpec (ps.map Frame.record) acc =
        some ⟨recs, [], hashBytes acc ps.flatten⟩ := by
  induction ps generalizing acc with
  | nil => exact Or.inr ⟨[], by simp [readFramesSpec, hashBytes]⟩
  | cons p ps ih =>
    cases hp : parseRecord p with
    | none => exact Or.inl (by simp [readFramesSpec, hp])
    | some pr =>
      obtain ⟨r, leftover⟩ := pr
      cases leftover with
      | cons x xs => exact Or.inl (by simp [readFramesSpec, hp])
      | nil =>
        rcases ih (hashBytes acc p) with hnone | ⟨recs, hsome⟩
        · refine Or.inl ?_
          rw [List.map_cons, readFramesSpec_cons_record _ _ _ _ hp, hnone]
        · refine Or.inr ⟨r :: recs, ?_⟩
          rw [List.map_cons, readFramesSpec_cons_record _ _ _ _ hp, hsome,
            List.flatten_cons, hashBytes_append]

/-- Flipping bit `j` of a byte value. -/
def flipByte (j b : Nat) : Nat := if b.testBit j then b - 2 ^ j else b + 2 ^ j

/-- A byte sequence with bit `j` of byte `i` flipped. -/
def flipAt (i j : Nat) (bs : List Nat) : List Nat :=
  bs.take i ++ flipByte j (bs.getD i 0) :: bs.drop (i + 1)

theorem list_eq_take_getD_drop (bs : List Nat) (i : Nat) (h : i < bs.length) :
    bs = bs.take i ++ bs.getD i 0 :: bs.drop (i + 1) := by
  conv_lhs => rw [← List.take_append_drop i bs]
  rw [List.drop_eq_getElem_cons h, List.getD_eq_getElem bs 0 h]

theorem flipAt_length (bs : List Nat) (i j : Nat) (h : i < bs.length) :
    (flipAt i j bs).length = bs.length := by
  simp only [flipAt, List.length_append, List.length_take, List.length_cons, List.length_drop]
  omega

theorem testBit_ge (b j : Nat) (h : b.testBit j) : 2 ^ j ≤ b := by
  by_contra hlt
  push_neg at hlt
  rw [Nat.testBit_eq_false_of_lt hlt] at h
  cases h

/-- The byte sums of a sequence and its single-bit flip differ by exactly
`2 ^ j`. -/
theorem flipAt_sum (bs : List Nat) (i j : Nat) (h : i < bs.length) :
    (flipAt i j bs).sum + 2 ^ j = bs.sum ∨ (flipAt i j bs).sum = bs.sum + 2 ^ j := by
  have hsplit := list_eq_take_getD_drop bs i h
  by_cases hbit : (bs.getD i 0).testBit j
  · left
    conv_rhs => rw [hsplit]
    simp only [flipAt, List.sum_append, List.sum_cons, flipByte, if_pos hbit]
    have := testBit_ge (bs.getD i 0) j hbit
    omega
  · right
    conv_rhs => rw [hsplit]
    simp only [flipAt, List.sum_append, List.sum_cons, flipByte, if_neg hbit]
    omega

theorem pow_two_lt_B64 (j : Nat) (hj : j < 64) : 2 ^ j < B64 :=
  Nat.pow_lt_pow_right (by omega) hj

/-- Digests differ whenever the byte sums differ by `2 ^ j` for `j < 64`. -/
theorem hashBytes_ne_of_flip_sum (acc : Nat) (bs cs : List Nat) (hacc : acc < B64)
    (j : Nat) (hj : j < 64) (h : bs.sum + 2 ^ j = cs.sum ∨ cs.sum + 2 ^ j = bs.sum) :
    hashBytes acc bs ≠ hashBytes acc cs := by
  rw [hashBytes_eq_sum _ _ hacc, hashBytes_eq_sum _ _ hacc]
  have hdvd : ∀ x : Nat, (x % B64 = (x + 2 ^ j) % B64) → False := by
    intro x hEq
    have hmod : Nat.ModEq B64 x (x + 2 ^ j) := hEq
    have : B64 ∣ (x + 2 ^ j) - x := (Nat.modEq_iff_dvd' (Nat.le_add_right x (2 ^ j))).1 hmod
    have h2 : B64 ∣ 2 ^ j := by simpa using this
    have hle := Nat.le_of_dvd (by positivity) h2
    have hlt := pow_two_lt_B64 j hj
    omega
  rcases h with h | h
  · intro hEq
    apply hdvd (acc + bs.sum)
    rw [hEq]
    congr 1
    omega
  · intro hEq
    apply hdvd (acc + cs.sum)
    rw [← hEq]
    congr 1
    omega

/-- When some checkpoint falls inside the record range, the observation list
is non-empty and headed by the first such checkpoint, which sits at most one
cadence interval after the start. -/
theorem obsOf_head_of_exists (k : Nat) (rs : List SRecord) (idx a b : Nat) (hk : k ≠ 0)
    (hex : ∃ n, 0 < n ∧ n ≤ rs.length ∧ (idx + n) % k = 0) :
    ∃ n rest, 0 < n ∧ n ≤ rs.length ∧ (idx + n) % k = 0 ∧ n ≤ k ∧
      obsOf k rs idx a b =
        ⟨idx + n, hashBytes a (payloadBytes (rs.take n)),
          hashBytes b (payloadBytes (rs.take n))⟩ :: rest := by
  induction rs generalizing idx a b with
  | nil =>
    obtain ⟨n, hn0, hnl, _⟩ := hex
    simp at hnl
    omega
  | cons r rs ih =>
    by_cases hc : (idx + 1) % k = 0
    · refine ⟨1, obsOf k rs (idx + 1) (hashBytes a (serializeRecord r))
        (hashBytes b (serializeRecord r)), by omega, by simp, hc, by omega, ?_⟩
      simp only [obsOf, if_pos (And.intro hk hc)]
      simp [payloadBytes]
    · obtain ⟨n, hn0, hnl, hnk⟩ := hex
      have hn1 : n ≠ 1 := by
        intro h1
        rw [h1] at hnk
        exact hc hnk
      have hex' : ∃ n', 0 < n' ∧ n' ≤ rs.length ∧ (idx + 1 + n') % k = 0 := by
        refine ⟨n - 1, by omega, by simp at hnl; omega, ?_⟩
        have : idx + 1 + (n - 1) = idx + n := by omega
        rw [this]
        exact hnk
      obtain ⟨n', rest, hn'0, hn'l, hn'k, hn'le, hobs⟩ :=
        ih (idx + 1) (hashBytes a (serializeRecord r)) (hashBytes b (serializeRecord r)) hex'
      have hn'ltk : n' < k := by
        rcases Nat.lt_or_ge n' k with h | h
        · exact h
        · have hkeq : n' = k := by omega
          rw [hkeq, show idx + 1 + k = (idx + 1) + k from rfl, Nat.add_mod_right] at hn'k
          exact absurd hn'k hc
      refine ⟨n' + 1, rest, by omega, by simp; omega, ?_, by omega, ?_⟩
      · have : idx + (n' + 1) = idx + 1 + n' := by omega
        rw [this]
        exact hn'k
      · simp only [obsOf, if_neg (by tauto : ¬(k ≠ 0 ∧ (idx + 1) % k = 0)), List.nil_append]
        rw [hobs]
        have harith : idx + 1 + n' = idx + (n' + 1) := by omega
        have htake : payloadBytes ((r :: rs).take (n' + 1)) =
            serializeRecord r ++ payloadBytes (rs.take n') := by
          simp [payloadBytes]
        rw [harith] at hobs ⊢
        congr 1
        rw [htake, hashBytes_append, hashBytes_append]

/-- The checkpoint-localized message is never the generic whole-file
message. -/
theorem checkpointMismatchMessage_ne_generic (c : Nat) :
    checkpointMismatchMessage c ≠ genericMismatchMessage := by
  intro h
  have hd := congrArg (fun s => s.data.length) h
  simp only [checkpointMismatchMessage, string_data_append, List.length_append] at hd
  have h1 : ("InvalidChecksum: Found checksum mismatch in checkpoint interval ending at record " :
      String).data.length = 81 := rfl
  have h2 : ("." : String).data.length = 1 := rfl
  have h3 : genericMismatchMessage.data.length = 70 := rfl
  rw [h1, h2, h3] at hd
  omega

/-- C2: for every successful run of `backup`, the destination directory
afterwards contains exactly one metadata file named `<topic>.metadata` and
exactly one data file `<topic>:<partition>.data` per partition that had at
least one record fetched, and no other files — no temporary or partial
artifacts survive. -/
theorem claim_C2_backup_directory_layout (topic : String) (pc : Nat)
    (source : Nat → List SRecord) (cadence t0 dur : Nat) :
    (backup topic pc source cadence t0 dur).directory.map Prod.fst =
        metadataFileName topic ::
          ((List.range pc).filter (fun p => !(source p).isEmpty)).map (dataFileName topic) ∧
      ((backup topic pc source cadence t0 dur).directory.map Prod.fst).Nodup := by
  have hmap : (backup topic pc source cadence t0 dur).directory.map Prod.fst =
      metadataFileName topic ::
        ((List.range pc).filter (fun p => !(source p).isEmpty)).map (dataFileName topic) := by
    simp [backup]
  refine ⟨hmap, ?_⟩
  rw [hmap]
  refine List.nodup_cons.2 ⟨?_, ?_⟩
  · intro hmem
    obtain ⟨p, _, hp⟩ := List.mem_map.1 hmem
    exact metadataFileName_ne_dataFileName topic p hp.symm
  · refine List.Nodup.map_on ?_ (List.Nodup.filter _ (List.nodup_range pc))
    intro p _ q _ h
    exact dataFileName_inj topic p q h

/-- C3: backing up the same record sequence twice is deterministic — the two
runs produce byte-identical data files and identical `checksum_hex` values,
and the metadata agrees on every field except `started_at` and
`finished_at`. -/
theorem claim_C3_backup_determinism (topic : String) (pc : Nat)
    (source : Nat → List SRecord) (cadence : Nat) (t0 dur t0' dur' : Nat) :
    (backup topic pc source cadence t0 dur).directory.tail =
        (backup topic pc source cadence t0' dur').directory.tail ∧
      (backup topic pc source cadence t0 dur).metadata.data_files.map
          DataFileDescriptor.checksum_hex =
        (backup topic pc source cadence t0' dur').metadata.data_files.map
          DataFileDescriptor.checksum_hex ∧
      (backup topic pc source cadence t0 dur).metadata.data_files =
        (backup topic pc source cadence t0' dur').metadata.data_files ∧
      (backup topic pc source cadence t0 dur).metadata.version =
        (backup topic pc source cadence t0' dur').metadata.version ∧
      (backup topic pc source cadence t0 dur).metadata.tool_name =
        (backup topic pc source cadence t0' dur').metadata.tool_name ∧
      (backup topic pc source cadence t0 dur).metadata.tool_version =
        (backup topic pc source cadence t0' dur').metadata.tool_version ∧
      (backup topic pc source cadence t0 dur).metadata.topic_name =
        (backup topic pc source cadence t0' dur').metadata.topic_name ∧
      (backup topic pc source cadence t0 dur).metadata.topic_id =
        (backup topic pc source cadence t0' dur').metadata.topic_id ∧
      (backup topic pc source cadence t0 dur).metadata.partition_count =
        (backup topic pc source cadence t0' dur').metadata.partition_count ∧
      (backup topic pc source cadence t0 dur).metadata.checksum_algorithm =
        (backup topic pc source cadence t0' dur').metadata.checksum_algorithm := by
  refine ⟨?_, rfl, rfl, rfl, rfl, rfl, rfl, rfl, rfl, rfl⟩
  simp only [backup, List.tail_cons]

/-- C6: for every V1 or V2 legacy-format input and both level settings,
verify fails with exit status 1, emits a message naming the detected
version, and produces no output on standard output. -/
theorem claim_C6_verify_legacy_rejection (bytes : List Nat)
    (dir : List (String × List Nat)) (level : VerifyLevel) :
    (sniffVersion bytes = SniffedVersion.V1 →
        verifyCmd level bytes dir =
          ⟨1, [], ["Only backups using format V3 can be verified, found V1."]⟩) ∧
      (sniffVersion bytes = SniffedVersion.V2 →
        verifyCmd level bytes dir =
          ⟨1, [], ["Only backups using format V3 can be verified, found V2."]⟩) := by
  constructor <;> intro h <;> simp [verifyCmd, h] <;> rfl

/-- C7: Inspect on V3 metadata whose checksum algorithm is not registered in
the running build succeeds with exit status 0, renders
`checksum_algorithm` as `"unknown"` with all other fields rendered
normally, and writes a human-readable warning to the diagnostic stream. -/
theorem claim_C7_inspect_unknown_algorithm (m : Metadata)
    (h : m.checksum_algorithm ∉ checksumRegistry) :
    (inspectMetadata m).exitCode = 0 ∧
      (inspectMetadata m).output.checksum_algorithm = "unknown" ∧
      (inspectMetadata m).output.version = m.version ∧
      (inspectMetadata m).output.tool_name = m.tool_name ∧
      (inspectMetadata m).output.tool_version = m.tool_version ∧
      (inspectMetadata m).output.started_at = m.started_at ∧
      (inspectMetadata m).output.finished_at = m.finished_at ∧
      (inspectMetadata m).output.topic_name = m.topic_name ∧
      (inspectMetadata m).output.topic_id = m.topic_id ∧
      (inspectMetadata m).output.partition_count = m.partition_count ∧
      (inspectMetadata m).output.data_files = m.data_files.map (fun d =>
        ⟨d.filename, d.partition, d.checksum_hex, d.record_count, d.start_offset,
          d.end_offset⟩) ∧
      (inspectMetadata m).warnings = [unknownAlgorithmWarning] := by
  have hc : checksumRegistry.contains m.checksum_algorithm = false := by
    simpa using h
  simp only [inspectMetadata, hc, Bool.false_eq_true, if_false]
  simp

/-- C8: every BackupMetadata produced by a successful backup satisfies the
invariants — `started_at < finished_at` strictly, at most one data file per
partition, unique filenames, and unique partitions among the
descriptors. -/
theorem claim_C8_metadata_invariants (topic : String) (pc : Nat)
    (source : Nat → List SRecord) (cadence t0 dur : Nat) :
    (backup topic pc source cadence t0 dur).metadata.started_at <
        (backup topic pc source cadence t0 dur).metadata.finished_at ∧
      (backup topic pc source cadence t0 dur).metadata.data_files.length ≤
        (backup topic pc source cadence t0 dur).metadata.partition_count ∧
      ((backup topic pc source cadence t0 dur).metadata.data_files.map
        DataFileDescriptor.filename).Nodup ∧
      ((backup topic pc source cadence t0 dur).metadata.data_files.map
        DataFileDescriptor.partition).Nodup := by
  refine ⟨?_, ?_, ?_, ?_⟩
  · show t0 < t0 + dur + 1
    omega
  · show (((List.range pc).filter _).map _).length ≤ pc
    rw [List.length_map]
    calc ((List.range pc).filter _).length ≤ (List.range pc).length :=
      List.length_filter_le _ _
      _ = pc := List.length_range pc
  · have hmap : (backup topic pc source cadence t0 dur).metadata.data_files.map
        DataFileDescriptor.filename =
        ((List.range pc).filter (fun p => !(source p).isEmpty)).map (dataFileName topic) := by
      simp [backup, finalizeDescriptor, List.map_map]
    rw [hmap]
    refine List.Nodup.map_on ?_ (List.Nodup.filter _ (List.nodup_range pc))
    intro p _ q _ h
    exact dataFileName_inj topic p q h
  · have hmap : (backup topic pc source cadence t0 dur).metadata.data_files.map
        DataFileDescriptor.partition =
        (List.range pc).filter (fun p => !(source p).isEmpty) := by
      simp only [backup, finalizeDescriptor, List.map_map]
      exact List.map_id _
    rw [hmap]
    exact List.Nodup.filter _ (List.nodup_range pc)

/-- Modelled from the spec: the byte image of the data file the Writer
produced for `rs1 ++ r :: rs2`, with the serialized bytes of the record at
index `rs1.length` replaced by `q` (a post-write corruption).  The framing,
the checkpoint frames and their embedded states are exactly those the Writer
wrote for the clean sequence. -/
def corruptRecordFile (k : Nat) (rs1 : List SRecord) (r : SRecord) (rs2 : List SRecord)
    (q : List Nat) : List Nat :=
  renderFile (writeScript k rs1 0 hashSeed ++
    Frame.record q ::
      ((if k ≠ 0 ∧ (rs1.length + 1) % k = 0 then
          [Frame.cp (rs1.length + 1)
            (hashBytes (hashBytes hashSeed (payloadBytes rs1)) (serializeRecord r))]
        else []) ++
        writeScript k rs2 (rs1.length + 1)
          (hashBytes (hashBytes hashSeed (payloadBytes rs1)) (serializeRecord r))))

theorem corruptRecordFile_clean (k : Nat) (rs1 : List SRecord) (r : SRecord)
    (rs2 : List SRecord) :
    corruptRecordFile k rs1 r rs2 (serializeRecord r) = writeDataFile k (rs1 ++ r :: rs2) := by
  unfold corruptRecordFile writeDataFile
  rw [writeScript_append, Nat.zero_add]
  rfl

theorem corruptRecordFile_zero (rs1 : List SRecord) (r : SRecord) (rs2 : List SRecord)
    (q : List Nat) :
    corruptRecordFile 0 rs1 r rs2 q =
      renderFile ((rs1.map serializeRecord ++ q :: rs2.map serializeRecord).map Frame.record) := by
  unfold corruptRecordFile
  rw [writeScript_zero, writeScript_zero]
  simp only [List.map_map, List.map_append, List.map_cons]
  rfl

theorem readFramesSpec_records_success (ps : List (List Nat)) (acc : Nat)
    (h : ∀ p ∈ ps, ∃ r, parseRecord p = some (r, [])) :
    ∃ recs, readFramesSpec (ps.map Frame.record) acc =
      some ⟨recs, [], hashBytes acc ps.flatten⟩ := by
  induction ps generalizing acc with
  | nil => exact ⟨[], by simp [readFramesSpec, hashBytes]⟩
  | cons p ps ih =>
    obtain ⟨r, hr⟩ := h p (by simp)
    obtain ⟨recs, hrecs⟩ := ih (hashBytes acc p) (fun x hx => h x (by simp [hx]))
    refine ⟨r :: recs, ?_⟩
    rw [List.map_cons, readFramesSpec_cons_record _ _ _ _ hr, hrecs, List.flatten_cons,
      hashBytes_append]

theorem hashBytes_ne_of_acc_ne (a b : Nat) (P : List Nat) (ha : a < B64) (hb : b < B64)
    (hab : a ≠ b) : hashBytes a P ≠ hashBytes b P := by
  rw [hashBytes_eq_sum _ _ ha, hashBytes_eq_sum _ _ hb]
  intro hEq
  apply hab
  have hc := Nat.ModEq.add_right_cancel' P.sum
    (show Nat.ModEq B64 (a + P.sum) (b + P.sum) from hEq)
  have hc' : a % B64 = b % B64 := hc
  rwa [Nat.mod_eq_of_lt ha, Nat.mod_eq_of_lt hb] at hc'

theorem flipAt_ne (bs : List Nat) (i j : Nat) (h : i < bs.length) : flipAt i j bs ≠ bs := by
  intro hEq
  have hs := flipAt_sum bs i j h
  rw [hEq] at hs
  have hj : 0 < 2 ^ j := by positivity
  omega

theorem renderFile_records_sum (ps : List (List Nat)) :
    (renderFile (ps.map Frame.record)).sum =
      (ps.map (fun p => (encLE 8 p.length).sum + p.sum)).sum := by
  induction ps with
  | nil => rfl
  | cons p ps ih =>
    simp only [List.map_cons, renderFile, List.flatMap_cons, renderFrame, List.sum_append,
      List.sum_cons]
    rw [show (ps.map Frame.record).flatMap renderFrame = renderFile (ps.map Frame.record) from
      rfl, ih]
    simp [List.sum_append]

/-- The payload stream of a record sequence, as flattened serialized
payloads. -/
theorem payloadBytes_eq_flatten (rs : List SRecord) :
    payloadBytes rs = (rs.map serializeRecord).flatten := by
  simp [payloadBytes, List.flatMap_def]

theorem corrupt_flatten_sum (rs1 : List SRecord) (r : SRecord) (rs2 : List SRecord)
    (i j : Nat) (hi : i < (serializeRecord r).length) :
    ((rs1.map serializeRecord ++ flipAt i j (serializeRecord r) ::
        rs2.map serializeRecord).flatten).sum + 2 ^ j = (payloadBytes (rs1 ++ r :: rs2)).sum ∨
      (payloadBytes (rs1 ++ r :: rs2)).sum + 2 ^ j =
        ((rs1.map serializeRecord ++ flipAt i j (serializeRecord r) ::
          rs2.map serializeRecord).flatten).sum := by
  rw [payloadBytes_eq_flatten]
  simp only [List.map_append, List.map_cons, List.flatten_append, List.flatten_cons,
    List.sum_append]
  rcases flipAt_sum (serializeRecord r) i j hi with h | h
  · left
    omega
  · right
    omega

theorem corrupt_zero_file_ne (rs1 : List SRecord) (r : SRecord) (rs2 : List SRecord)
    (i j : Nat) (hi : i < (serializeRecord r).length) :
    corruptRecordFile 0 rs1 r rs2 (flipAt i j (serializeRecord r)) ≠
      writeDataFile 0 (rs1 ++ r :: rs2) := by
  intro hEq
  have h1 := congrArg List.sum hEq
  rw [← corruptRecordFile_clean 0 rs1 r rs2, corruptRecordFile_zero, corruptRecordFile_zero,
    renderFile_records_sum, renderFile_records_sum] at h1
  simp only [List.map_append, List.map_cons, List.sum_append, List.sum_cons,
    flipAt_length _ _ _ hi] at h1
  have hs := flipAt_sum (serializeRecord r) i j hi
  have hj : 0 < 2 ^ j := by positivity
  omega

/-- C1: for every record sequence backed up by the Writer and restored by
the Reader/restore orchestrator, the recovered sequence is element-wise
equal to the input in key, value, headers (content and order), timestamp and
timestamp type, while the destination log assigns its own offsets starting
at 0 (source offsets are not preserved). -/
theorem claim_C1_backup_restore_roundtrip (topic : String) (pc : Nat)
    (source : Nat → List SRecord) (cadence t0 dur : Nat) (p : Nat)
    (hwf : ∀ r ∈ source p, wfRecord r) (hlen : (source p).length < B64)
    (hp : p < pc) (hne : source p ≠ []) :
    ∃ d ∈ (backup topic pc source cadence t0 dur).metadata.data_files,
      d.partition = p ∧
        restorePartition (backup topic pc source cadence t0 dur).directory d =
          some ((source p).enum.map (fun q =>
            (⟨q.2.key, q.2.value, q.2.headers, q.2.timestamp, q.2.timestamp_type,
              q.1⟩ : TargetRecord))) := by
  have hparts : p ∈ (List.range pc).filter (fun q => !(source q).isEmpty) := by
    refine List.mem_filter.2 ⟨List.mem_range.2 hp, ?_⟩
    simp [List.isEmpty_iff, hne]
  refine ⟨finalizeDescriptor topic p (source p), ?_, rfl, ?_⟩
  · exact List.mem_map.2 ⟨p, hparts, rfl⟩
  · have hbeq : (dataFileName topic p == metadataFileName topic) = false :=
      beq_eq_false_iff_ne.2 (Ne.symm (metadataFileName_ne_dataFileName topic p))
    have hlook : List.lookup (dataFileName topic p)
        (backup topic pc source cadence t0 dur).directory =
        some (writeDataFile cadence (source p)) := by
      simp only [backup, List.lookup, hbeq]
      exact lookup_map_name _ _ _ p hparts (fun q _ h => dataFileName_inj topic q p h)
    unfold restorePartition
    rw [show (finalizeDescriptor topic p (source p)).filename = dataFileName topic p from rfl,
      hlook]
    simp only [readDataFile_writeDataFile cadence (source p) hwf hlen]
    rfl

theorem wfFrames_corrupt_zero (rs1 : List SRecord) (r : SRecord) (rs2 : List SRecord)
    (i j : Nat) (hwf : ∀ x ∈ rs1 ++ r :: rs2, wfRecord x)
    (hi : i < (serializeRecord r).length) :
    ∀ f ∈ ((rs1.map serializeRecord ++ flipAt i j (serializeRecord r) ::
      rs2.map serializeRecord).map Frame.record), wfFrame f := by
  intro f hf
  obtain ⟨q, hq, rfl⟩ := List.mem_map.1 hf
  show q.length < B64
  rcases List.mem_append.1 hq with h | h
  · obtain ⟨x, hx, rfl⟩ := List.mem_map.1 h
    exact (hwf x (by simp [hx])).2.2.2.2.2.2.2
  · rcases List.mem_cons.1 h with h | h
    · subst h
      rw [flipAt_length _ _ _ hi]
      exact (hwf r (by simp)).2.2.2.2.2.2.2
    · obtain ⟨x, hx, rfl⟩ := List.mem_map.1 h
      exact (hwf x (by simp [hx])).2.2.2.2.2.2.2

/-- The recomputed digest of the bit-flipped payload stream differs from the
descriptor digest of the clean stream. -/
theorem corrupt_digest_ne (rs1 : List SRecord) (r : SRecord) (rs2 : List SRecord)
    (i j : Nat) (hj : j < 8) (hi : i < (serializeRecord r).length) :
    hashBytes hashSeed ((rs1.map serializeRecord ++ flipAt i j (serializeRecord r) ::
        rs2.map serializeRecord).flatten) ≠
      hashBytes hashSeed (payloadBytes (rs1 ++ r :: rs2)) := by
  have hseed : hashSeed < B64 := by norm_num [hashSeed, B64]
  exact hashBytes_ne_of_flip_sum hashSeed _ _ hseed j (by omega)
    (corrupt_flatten_sum rs1 r rs2 i j hi)

/-- The hex comparison of the corrupted digest against the clean descriptor
digest fails. -/
theorem corrupt_hex_ne (rs1 : List SRecord) (r : SRecord) (rs2 : List SRecord)
    (i j : Nat) (hj : j < 8) (hi : i < (serializeRecord r).length) :
    hexRender 16 (hashBytes hashSeed ((rs1.map serializeRecord ++
        flipAt i j (serializeRecord r) :: rs2.map serializeRecord).flatten)) ≠
      hexRender 16 (hashBytes hashSeed (payloadBytes (rs1 ++ r :: rs2))) := by
  have hseed : hashSeed < B64 := by norm_num [hashSeed, B64]
  have h16 : (16 : Nat) ^ 16 = B64 := by norm_num [B64]
  intro hhex
  exact corrupt_digest_ne rs1 r rs2 i j hj hi
    (hexRender_injective 16 _ _ (by rw [h16]; exact hashBytes_lt _ _ hseed)
      (by rw [h16]; exact hashBytes_lt _ _ hseed) hhex)

/-- File-level verify reports a zero-checkpoint data file with a bit flipped
inside a record's serialized bytes as not intact. -/
theorem verifyFileLevel_corrupt_zero (topic : String) (pp : Nat) (rs1 : List SRecord)
    (r : SRecord) (rs2 : List SRecord) (i j : Nat)
    (hwf : ∀ x ∈ rs1 ++ r :: rs2, wfRecord x) (hj : j < 8)
    (hi : i < (serializeRecord r).length) :
    verifyFileLevel (corruptRecordFile 0 rs1 r rs2 (flipAt i j (serializeRecord r)))
      (finalizeDescriptor topic pp (rs1 ++ r :: rs2)) = FileIntegrity.notIntact [] := by
  unfold verifyFileLevel
  rw [corruptRecordFile_zero,
    show readDataFile (renderFile ((rs1.map serializeRecord ++
        flipAt i j (serializeRecord r) :: rs2.map serializeRecord).map Frame.record)) =
      readFramesSpec ((rs1.map serializeRecord ++ flipAt i j (serializeRecord r) ::
        rs2.map serializeRecord).map Frame.record) hashSeed from
      readBody_renderFile _ hashSeed _ (wfFrames_corrupt_zero rs1 r rs2 i j hwf hi) le_rfl]
  rcases readFramesSpec_records (rs1.map serializeRecord ++
      flipAt i j (serializeRecord r) :: rs2.map serializeRecord) hashSeed with
    hnone | ⟨recs, hsome⟩
  · rw [hnone]
  · simp only [hsome]
    exact if_neg (corrupt_hex_ne rs1 r rs2 i j hj hi)

/-- Looking a descriptor's file up in a singleton directory. -/
theorem lookup_single (d : DataFileDescriptor) (bytes : List Nat) :
    List.lookup d.filename [(d.filename, bytes)] = some bytes := by
  simp [List.lookup]

/-- The frame stream underlying `corruptRecordFile`, before byte rendering. -/
def corruptFrames (k : Nat) (rs1 : List SRecord) (r : SRecord) (rs2 : List SRecord)
    (q : List Nat) : List Frame :=
  writeScript k rs1 0 hashSeed ++
    Frame.record q ::
      ((if k ≠ 0 ∧ (rs1.length + 1) % k = 0 then
          [Frame.cp (rs1.length + 1)
            (hashBytes (hashBytes hashSeed (payloadBytes rs1)) (serializeRecord r))]
        else []) ++
        writeScript k rs2 (rs1.length + 1)
          (hashBytes (hashBytes hashSeed (payloadBytes rs1)) (serializeRecord r)))

theorem corruptRecordFile_eq_render (k : Nat) (rs1 : List SRecord) (r : SRecord)
    (rs2 : List SRecord) (q : List Nat) :
    corruptRecordFile k rs1 r rs2 q = renderFile (corruptFrames k rs1 r rs2 q) := rfl

/-- A record-byte bit flip changes the file bytes, at any checkpoint
cadence: the framing around the flipped record is untouched, so the byte sums
differ by exactly the flipped power of two. -/
theorem corrupt_file_ne (k : Nat) (rs1 : List SRecord) (r : SRecord) (rs2 : List SRecord)
    (i j : Nat) (hi : i < (serializeRecord r).length) :
    corruptRecordFile k rs1 r rs2 (flipAt i j (serializeRecord r)) ≠
      writeDataFile k (rs1 ++ r :: rs2) := by
  intro hEq
  have h1 := congrArg List.sum hEq
  rw [← corruptRecordFile_clean k rs1 r rs2] at h1
  unfold corruptRecordFile at h1
  simp only [renderFile, List.flatMap_append, List.flatMap_cons, List.sum_append,
    renderFrame, List.sum_cons, flipAt_length _ _ _ hi] at h1
  have hs := flipAt_sum (serializeRecord r) i j hi
  have hj : 0 < 2 ^ j := by positivity
  omega

theorem wfFrames_corruptFrames (k : Nat) (rs1 : List SRecord) (r : SRecord)
    (rs2 : List SRecord) (i j : Nat) (hwf : ∀ x ∈ rs1 ++ r :: rs2, wfRecord x)
    (hlen : (rs1 ++ r :: rs2).length < B64) (hi : i < (serializeRecord r).length) :
    ∀ f ∈ corruptFrames k rs1 r rs2 (flipAt i j (serializeRecord r)), wfFrame f := by
  have hseed : hashSeed < B64 := by norm_num [hashSeed, B64]
  have hlen' : rs1.length + 1 + rs2.length < B64 := by
    simp only [List.length_append, List.length_cons] at hlen
    omega
  intro f hf
  simp only [corruptFrames, List.mem_append, List.mem_cons] at hf
  rcases hf with hf | hf | hf | hf
  · exact wfFrame_writeScript k rs1 0 hashSeed (fun x hx => hwf x (by simp [hx]))
      (by omega) hseed f hf
  · subst hf
    show (flipAt i j (serializeRecord r)).length < B64
    rw [flipAt_length _ _ _ hi]
    exact (hwf r (by simp)).2.2.2.2.2.2.2
  · by_cases hc : k ≠ 0 ∧ (rs1.length + 1) % k = 0
    · rw [if_pos hc] at hf
      simp only [List.mem_singleton] at hf
      subst hf
      exact ⟨by omega, hashBytes_lt _ _ (hashBytes_lt _ _ hseed)⟩
    · rw [if_neg hc] at hf
      simp at hf
  · exact wfFrame_writeScript k rs2 (rs1.length + 1) _ (fun x hx => hwf x (by simp [hx]))
      (by omega) (hashBytes_lt _ _ (hashBytes_lt _ _ hseed)) f hf

/-- The payloads of the record frames of a frame stream, in file order. -/
def framePayloads : List Frame → List (List Nat)
  | [] => []
  | .record p :: fs => p :: framePayloads fs
  | .cp _ _ :: fs => framePayloads fs

theorem framePayloads_append (A B : List Frame) :
    framePayloads (A ++ B) = framePayloads A ++ framePayloads B := by
  induction A with
  | nil => rfl
  | cons f A ih => cases f <;> simp [framePayloads, ih]

theorem framePayloads_writeScript (k : Nat) (rs : List SRecord) (idx acc : Nat) :
    framePayloads (writeScript k rs idx acc) = rs.map serializeRecord := by
  induction rs generalizing idx acc with
  | nil => rfl
  | cons r rs ih =>
    simp only [writeScript]
    by_cases hc : k ≠ 0 ∧ (idx + 1) % k = 0
    · rw [if_pos hc]
      simp only [List.singleton_append, framePayloads, List.append_eq, List.nil_append, ih,
        List.map_cons]
    · rw [if_neg hc]
      simp only [List.nil_append, framePayloads, List.append_eq, ih, List.map_cons]

theorem framePayloads_corruptFrames (k : Nat) (rs1 : List SRecord) (r : SRecord)
    (rs2 : List SRecord) (q : List Nat) :
    framePayloads (corruptFrames k rs1 r rs2 q) =
      rs1.map serializeRecord ++ q :: rs2.map serializeRecord := by
  unfold corruptFrames
  rw [framePayloads_append, framePayloads_writeScript]
  by_cases hc : k ≠ 0 ∧ (rs1.length + 1) % k = 0
  · rw [if_pos hc]
    simp only [List.singleton_append, framePayloads, List.append_eq, List.nil_append,
      framePayloads_writeScript]
  · rw [if_neg hc]
    simp only [List.nil_append, framePayloads, List.append_eq, framePayloads_writeScript]

/-- Whenever the Reader succeeds, its final digest is the checksum of the
concatenated record-frame payloads: checkpoint frames never enter the
digest. -/
theorem readFramesSpec_digest (fs : List Frame) (acc : Nat) (res : ReadResult)
    (h : readFramesSpec fs acc = some res) :
    res.digest = hashBytes acc (framePayloads fs).flatten := by
  induction fs generalizing acc res with
  | nil =>
    simp only [readFramesSpec] at h
    cases h
    simp [framePayloads, hashBytes]
  | cons f fs ih =>
    cases f with
    | record p =>
      cases hp : parseRecord p with
      | none => simp [readFramesSpec, hp] at h
      | some pr =>
        obtain ⟨r, leftover⟩ := pr
        cases leftover with
        | cons x xs => simp [readFramesSpec, hp] at h
        | nil =>
          rw [readFramesSpec_cons_record _ _ _ _ hp] at h
          cases h' : readFramesSpec fs (hashBytes acc p) with
          | none => rw [h'] at h; cases h
          | some res' =>
            rw [h'] at h
            obtain rfl : res = ⟨r :: res'.records, res'.checkObs, res'.digest⟩ := by
              cases h
              rfl
            show res'.digest = _
            rw [ih _ _ h']
            simp [framePayloads, hashBytes_append]
    | cp i s =>
      rw [readFramesSpec_cons_cp] at h
      cases h' : readFramesSpec fs acc with
      | none => rw [h'] at h; cases h
      | some res' =>
        rw [h'] at h
        obtain rfl : res = ⟨res'.records, ⟨i, s, acc⟩ :: res'.checkObs, res'.digest⟩ := by
          cases h
          rfl
        show res'.digest = _
        rw [ih _ _ h']
        simp [framePayloads]

/-- File-level verify reports a data file of any checkpoint cadence with a
bit flipped inside a record's serialized bytes as not intact: either the
flip breaks record framing and the Reader fails, or the recomputed digest —
which ignores checkpoints — differs from the descriptor's. -/
theorem verifyFileLevel_corrupt (k : Nat) (topic : String) (pp : Nat) (rs1 : List SRecord)
    (r : SRecord) (rs2 : List SRecord) (i j : Nat)
    (hwf : ∀ x ∈ rs1 ++ r :: rs2, wfRecord x) (hlen : (rs1 ++ r :: rs2).length < B64)
    (hj : j < 8) (hi : i < (serializeRecord r).length) :
    verifyFileLevel (corruptRecordFile k rs1 r rs2 (flipAt i j (serializeRecord r)))
      (finalizeDescriptor topic pp (rs1 ++ r :: rs2)) = FileIntegrity.notIntact [] := by
  unfold verifyFileLevel
  rw [corruptRecordFile_eq_render,
    show readDataFile (renderFile (corruptFrames k rs1 r rs2
        (flipAt i j (serializeRecord r)))) =
      readFramesSpec (corruptFrames k rs1 r rs2 (flipAt i j (serializeRecord r))) hashSeed from
      readBody_renderFile _ hashSeed _ (wfFrames_corruptFrames k rs1 r rs2 i j hwf hlen hi)
        le_rfl]
  cases hread : readFramesSpec (corruptFrames k rs1 r rs2 (flipAt i j (serializeRecord r)))
      hashSeed with
  | none => rfl
  | some res =>
    have hd : res.digest = hashBytes hashSeed ((rs1.map serializeRecord ++
        flipAt i j (serializeRecord r) :: rs2.map serializeRecord).flatten) := by
      rw [readFramesSpec_digest _ _ _ hread, framePayloads_corruptFrames]
    show (if hexRender 16 res.digest =
        (finalizeDescriptor topic pp (rs1 ++ r :: rs2)).checksum_hex then
      FileIntegrity.intact else FileIntegrity.notIntact []) = FileIntegrity.notIntact []
    rw [hd]
    exact if_neg (corrupt_hex_ne rs1 r rs2 i j hj hi)

/-- C4 counterexample: a single bit flipped inside a checkpoint frame's
embedded state leaves every serialized-record byte unchanged, so file-level
verify — which never inspects checkpoints — still reports the file as
intact and exits 0, refuting the claim that flipping any single bit of a
data file makes file-level verify report not-intact. -/
theorem claim_C4_counterexample :
    flipAt 45 0 (writeDataFile 1 [(⟨none, none, [], 0, 0, 0⟩ : SRecord)]) ≠
        writeDataFile 1 [(⟨none, none, [], 0, 0, 0⟩ : SRecord)] ∧
      (45 : Nat) < (writeDataFile 1 [(⟨none, none, [], 0, 0, 0⟩ : SRecord)]).length ∧
      verifyFileLevel (flipAt 45 0 (writeDataFile 1 [(⟨none, none, [], 0, 0, 0⟩ : SRecord)]))
          (finalizeDescriptor "t" 0 [(⟨none, none, [], 0, 0, 0⟩ : SRecord)]) =
        FileIntegrity.intact ∧
      (verifyBackup VerifyLevel.file
          ⟨3, toolName, toolVersion, 0, 1, "t", none, 1, "xxhash3_64_be",
            [finalizeDescriptor "t" 0 [(⟨none, none, [], 0, 0, 0⟩ : SRecord)]]⟩
          [((finalizeDescriptor "t" 0 [(⟨none, none, [], 0, 0, 0⟩ : SRecord)]).filename,
            flipAt 45 0 (writeDataFile 1 [(⟨none, none, [], 0, 0, 0⟩ : SRecord)]))]).exitCode =
        0 := by
  decide

/-- C4 (amended): file-level verify of an untouched backup reports every
referenced data file intact and exits 0; flipping a single bit inside a
record's serialized bytes in a data file of any checkpoint cadence makes
file-level verify report that file as not intact and the command exit 1; and
the exit status is 0 iff all referenced data files pass their check. -/
theorem claim_C4_file_level_verify :
    (∀ (topic : String) (pc : Nat) (source : Nat → List SRecord) (cadence t0 dur : Nat),
      (∀ p, p < pc → (∀ r ∈ source p, wfRecord r) ∧ (source p).length < B64) →
      (∀ x ∈ (verifyBackup VerifyLevel.file (backup topic pc source cadence t0 dur).metadata
          (backup topic pc source cadence t0 dur).directory).results,
        x.2 = FileIntegrity.intact) ∧
        (verifyBackup VerifyLevel.file (backup topic pc source cadence t0 dur).metadata
          (backup topic pc source cadence t0 dur).directory).exitCode = 0) ∧
    (∀ (k : Nat) (topic : String) (pp : Nat) (rs1 : List SRecord) (r : SRecord)
        (rs2 : List SRecord) (i j : Nat),
      (∀ x ∈ rs1 ++ r :: rs2, wfRecord x) → (rs1 ++ r :: rs2).length < B64 → j < 8 →
      i < (serializeRecord r).length →
      corruptRecordFile k rs1 r rs2 (flipAt i j (serializeRecord r)) ≠
          writeDataFile k (rs1 ++ r :: rs2) ∧
        verifyFileLevel (corruptRecordFile k rs1 r rs2 (flipAt i j (serializeRecord r)))
            (finalizeDescriptor topic pp (rs1 ++ r :: rs2)) = FileIntegrity.notIntact [] ∧
        (verifyBackup VerifyLevel.file
            ⟨3, toolName, toolVersion, 0, 1, topic, none, 1, "xxhash3_64_be",
              [finalizeDescriptor topic pp (rs1 ++ r :: rs2)]⟩
            [((finalizeDescriptor topic pp (rs1 ++ r :: rs2)).filename,
              corruptRecordFile k rs1 r rs2 (flipAt i j (serializeRecord r)))]).exitCode =
          1) ∧
    (∀ (level : VerifyLevel) (m : Metadata) (dir : List (String × List Nat)),
      (verifyBackup level m dir).exitCode = 0 ↔
        ∀ x ∈ (verifyBackup level m dir).results, x.2 = FileIntegrity.intact) := by
  have hseed : hashSeed < B64 := by norm_num [hashSeed, B64]
  have h16 : (16 : Nat) ^ 16 = B64 := by norm_num [B64]
  refine ⟨?_, ?_, ?_⟩
  · -- untouched backups verify clean
    intro topic pc source cadence t0 dur hsrc
    have hres : ∀ x ∈ (verifyBackup VerifyLevel.file
        (backup topic pc source cadence t0 dur).metadata
        (backup topic pc source cadence t0 dur).directory).results,
        x.2 = FileIntegrity.intact := by
      intro x hx
      obtain ⟨d, hd, rfl⟩ := List.mem_map.1 hx
      obtain ⟨p, hpp, rfl⟩ := List.mem_map.1 hd
      have hp : p < pc := List.mem_range.1 (List.mem_filter.1 hpp).1
      obtain ⟨hwfp, hlenp⟩ := hsrc p hp
      have hbeq : (dataFileName topic p == metadataFileName topic) = false :=
        beq_eq_false_iff_ne.2 (Ne.symm (metadataFileName_ne_dataFileName topic p))
      have hlook : List.lookup (dataFileName topic p)
          (backup topic pc source cadence t0 dur).directory =
          some (writeDataFile cadence (source p)) := by
        simp only [backup, List.lookup, hbeq]
        exact lookup_map_name _ _ _ p hpp (fun q _ h => dataFileName_inj topic q p h)
      show verifyDataFile VerifyLevel.file _ _ = FileIntegrity.intact
      unfold verifyDataFile
      rw [show (finalizeDescriptor topic p (source p)).filename = dataFileName topic p from
        rfl, hlook]
      show verifyFileLevel _ _ = FileIntegrity.intact
      unfold verifyFileLevel
      rw [readDataFile_writeDataFile cadence (source p) hwfp hlenp]
      exact if_pos rfl
    refine ⟨hres, ?_⟩
    show (if _ then 0 else 1) = 0
    rw [if_pos ?_]
    rw [List.all_eq_true]
    intro x hx
    exact beq_iff_eq.2 (hres x hx)
  · -- a bit flip inside a record's bytes is detected at any cadence
    intro k topic pp rs1 r rs2 i j hwf hlen hj hi
    have hnotint := verifyFileLevel_corrupt k topic pp rs1 r rs2 i j hwf hlen hj hi
    refine ⟨corrupt_file_ne k rs1 r rs2 i j hi, hnotint, ?_⟩
    show (if _ then 0 else 1) = 1
    rw [if_neg ?_]
    intro hall
    rw [List.all_eq_true] at hall
    have hx := hall ((finalizeDescriptor topic pp (rs1 ++ r :: rs2)).filename,
      verifyDataFile VerifyLevel.file
        [((finalizeDescriptor topic pp (rs1 ++ r :: rs2)).filename,
          corruptRecordFile k rs1 r rs2 (flipAt i j (serializeRecord r)))]
        (finalizeDescriptor topic pp (rs1 ++ r :: rs2))) (by simp [verifyBackup])
    have hvd : verifyDataFile VerifyLevel.file
        [((finalizeDescriptor topic pp (rs1 ++ r :: rs2)).filename,
          corruptRecordFile k rs1 r rs2 (flipAt i j (serializeRecord r)))]
        (finalizeDescriptor topic pp (rs1 ++ r :: rs2)) = FileIntegrity.notIntact [] := by
      unfold verifyDataFile
      rw [lookup_single]
      exact hnotint
    rw [hvd] at hx
    simp at hx
  · -- exit status aggregation
    intro level m dir
    constructor
    · intro h0 x hx
      by_contra hne
      have hnall : ¬ ((m.data_files.map (fun d => (d.filename, verifyDataFile level dir d))).all
          (fun x => x.2 == FileIntegrity.intact) = true) := by
        rw [List.all_eq_true]
        push_neg
        exact ⟨x, hx, by simpa using hne⟩
      have : (verifyBackup level m dir).exitCode = 1 := by
        show (if _ then 0 else 1) = 1
        rw [if_neg hnall]
      omega
    · intro hall
      show (if _ then 0 else 1) = 0
      rw [if_pos ?_]
      rw [List.all_eq_true]
      intro x hx
      exact beq_iff_eq.2 (hall x hx)

/-- All payloads of the zero-checkpoint corrupted stream parse when the
flipped payload does. -/
theorem corrupt_zero_payloads_parse (rs1 : List SRecord) (r : SRecord) (rs2 : List SRecord)
    (i j : Nat) (r' : SRecord) (hwf : ∀ x ∈ rs1 ++ r :: rs2, wfRecord x)
    (hparse : parseRecord (flipAt i j (serializeRecord r)) = some (r', [])) :
    ∀ q ∈ rs1.map serializeRecord ++ flipAt i j (serializeRecord r) ::
      rs2.map serializeRecord, ∃ x, parseRecord q = some (x, []) := by
  intro q hq
  rcases List.mem_append.1 hq with h | h
  · obtain ⟨x, hx, rfl⟩ := List.mem_map.1 h
    exact ⟨x, by simpa using parseRecord_serializeRecord x [] (hwf x (by simp [hx]))⟩
  · rcases List.mem_cons.1 h with h | h
    · subst h
      exact ⟨r', hparse⟩
    · obtain ⟨x, hx, rfl⟩ := List.mem_map.1 h
      exact ⟨x, by simpa using parseRecord_serializeRecord x [] (hwf x (by simp [hx]))⟩

/-- Record-level verify of a zero-checkpoint data file with a bit flipped
inside a record's serialized bytes (and still parsable) reports the generic
whole-file mismatch message. -/
theorem verifyRecordLevel_corrupt_zero (topic : String) (pp : Nat) (rs1 : List SRecord)
    (r : SRecord) (rs2 : List SRecord) (i j : Nat) (r' : SRecord)
    (hwf : ∀ x ∈ rs1 ++ r :: rs2, wfRecord x) (hj : j < 8)
    (hi : i < (serializeRecord r).length)
    (hparse : parseRecord (flipAt i j (serializeRecord r)) = some (r', [])) :
    verifyRecordLevel (corruptRecordFile 0 rs1 r rs2 (flipAt i j (serializeRecord r)))
      (finalizeDescriptor topic pp (rs1 ++ r :: rs2)) =
      FileIntegrity.notIntact [genericMismatchMessage] := by
  unfold verifyRecordLevel
  rw [corruptRecordFile_zero,
    show readDataFile (renderFile ((rs1.map serializeRecord ++
        flipAt i j (serializeRecord r) :: rs2.map serializeRecord).map Frame.record)) =
      readFramesSpec ((rs1.map serializeRecord ++ flipAt i j (serializeRecord r) ::
        rs2.map serializeRecord).map Frame.record) hashSeed from
      readBody_renderFile _ hashSeed _ (wfFrames_corrupt_zero rs1 r rs2 i j hwf hi) le_rfl]
  obtain ⟨recs, hsome⟩ := readFramesSpec_records_success (rs1.map serializeRecord ++
    flipAt i j (serializeRecord r) :: rs2.map serializeRecord) hashSeed
    (corrupt_zero_payloads_parse rs1 r rs2 i j r' hwf hparse)
  simp only [hsome, List.find?_nil]
  exact if_neg (corrupt_hex_ne rs1 r rs2 i j hj hi)

/-- Record-level verify of a checkpointed data file whose corrupted record
is followed by some checkpoint reports a message naming the first checkpoint
after the corruption — the checkpoint interval containing it. -/
theorem verifyRecordLevel_corrupt_localized (topic : String) (pp : Nat) (k : Nat)
    (rs1 : List SRecord) (r : SRecord) (rs2 : List SRecord) (i j : Nat) (r' : SRecord)
    (hwf : ∀ x ∈ rs1 ++ r :: rs2, wfRecord x) (hlen : (rs1 ++ r :: rs2).length < B64)
    (hj : j < 8) (hi : i < (serializeRecord r).length) (hk : k ≠ 0)
    (hex : ∃ c, rs1.length < c ∧ c ≤ (rs1 ++ r :: rs2).length ∧ c % k = 0)
    (hparse : parseRecord (flipAt i j (serializeRecord r)) = some (r', [])) :
    ∃ c, c % k = 0 ∧ rs1.length < c ∧ c ≤ rs1.length + k ∧
      c ≤ (rs1 ++ r :: rs2).length ∧
      verifyRecordLevel (corruptRecordFile k rs1 r rs2 (flipAt i j (serializeRecord r)))
        (finalizeDescriptor topic pp (rs1 ++ r :: rs2)) =
        FileIntegrity.notIntact [checkpointMismatchMessage c] := by
  have hseed : hashSeed < B64 := by norm_num [hashSeed, B64]
  have hr : wfRecord r := hwf r (by simp)
  have hwf1 : ∀ x ∈ rs1, wfRecord x := fun x hx => hwf x (by simp [hx])
  have hwf2 : ∀ x ∈ rs2, wfRecord x := fun x hx => hwf x (by simp [hx])
  have hlenB : (rs1 ++ r :: rs2).length = rs1.length + 1 + rs2.length := by
    simp [List.length_append, List.length_cons]
    omega
  have ha0lt : hashBytes hashSeed (payloadBytes rs1) < B64 := hashBytes_lt _ _ hseed
  have ha1lt : hashBytes (hashBytes hashSeed (payloadBytes rs1)) (serializeRecord r) < B64 :=
    hashBytes_lt _ _ ha0lt
  have hb1lt : hashBytes (hashBytes hashSeed (payloadBytes rs1))
      (flipAt i j (serializeRecord r)) < B64 := hashBytes_lt _ _ ha0lt
  have hab : hashBytes (hashBytes hashSeed (payloadBytes rs1)) (serializeRecord r) ≠
      hashBytes (hashBytes hashSeed (payloadBytes rs1)) (flipAt i j (serializeRecord r)) := by
    apply hashBytes_ne_of_flip_sum _ _ _ ha0lt j (by omega)
    rcases flipAt_sum (serializeRecord r) i j hi with h | h
    · right
      exact h
    · left
      exact h.symm
  have hwfF : ∀ f ∈ (writeScript k rs1 0 hashSeed ++
      Frame.record (flipAt i j (serializeRecord r)) ::
        ((if k ≠ 0 ∧ (rs1.length + 1) % k = 0 then
            [Frame.cp (rs1.length + 1)
              (hashBytes (hashBytes hashSeed (payloadBytes rs1)) (serializeRecord r))]
          else []) ++
          writeScript k rs2 (rs1.length + 1)
            (hashBytes (hashBytes hashSeed (payloadBytes rs1)) (serializeRecord r)))),
      wfFrame f := by
    intro f hf
    rcases List.mem_append.1 hf with h | h
    · exact wfFrame_writeScript k rs1 0 hashSeed hwf1 (by omega) hseed f h
    · rcases List.mem_cons.1 h with h | h
      · subst h
        show (flipAt i j (serializeRecord r)).length < B64
        rw [flipAt_length _ _ _ hi]
        exact hr.2.2.2.2.2.2.2
      · rcases List.mem_append.1 h with h | h
        · by_cases hc : k ≠ 0 ∧ (rs1.length + 1) % k = 0
          · rw [if_pos hc] at h
            simp only [List.mem_singleton] at h
            subst h
            exact ⟨by omega, ha1lt⟩
          · rw [if_neg hc] at h
            simp at h
        · exact wfFrame_writeScript k rs2 (rs1.length + 1) _ hwf2 (by omega) ha1lt f h
  have hA := readFramesSpec_writeScript k rs1 0 hashSeed hashSeed hwf1
  have hT := readFramesSpec_writeScript k rs2 (rs1.length + 1)
    (hashBytes (hashBytes hashSeed (payloadBytes rs1)) (serializeRecord r))
    (hashBytes (hashBytes hashSeed (payloadBytes rs1)) (flipAt i j (serializeRecord r))) hwf2
  have hB : readFramesSpec (Frame.record (flipAt i j (serializeRecord r)) ::
      ((if k ≠ 0 ∧ (rs1.length + 1) % k = 0 then
          [Frame.cp (rs1.length + 1)
            (hashBytes (hashBytes hashSeed (payloadBytes rs1)) (serializeRecord r))]
        else []) ++
        writeScript k rs2 (rs1.length + 1)
          (hashBytes (hashBytes hashSeed (payloadBytes rs1)) (serializeRecord r))))
      (hashBytes hashSeed (payloadBytes rs1)) =
      some ⟨r' :: rs2,
        (if k ≠ 0 ∧ (rs1.length + 1) % k = 0 then
            [(⟨rs1.length + 1,
              hashBytes (hashBytes hashSeed (payloadBytes rs1)) (serializeRecord r),
              hashBytes (hashBytes hashSeed (payloadBytes rs1))
                (flipAt i j (serializeRecord r))⟩ : CheckObs)]
          else []) ++
          obsOf k rs2 (rs1.length + 1)
            (hashBytes (hashBytes hashSeed (payloadBytes rs1)) (serializeRecord r))
            (hashBytes (hashBytes hashSeed (payloadBytes rs1)) (flipAt i j (serializeRecord r))),
        hashBytes (hashBytes (hashBytes hashSeed (payloadBytes rs1))
          (flipAt i j (serializeRecord r))) (payloadBytes rs2)⟩ := by
    rw [readFramesSpec_cons_record _ _ _ _ hparse]
    by_cases hc : k ≠ 0 ∧ (rs1.length + 1) % k = 0
    · rw [if_pos hc, if_pos hc, List.singleton_append, readFramesSpec_cons_cp, hT]
      try rfl
    · rw [if_neg hc, if_neg hc, List.nil_append, List.nil_append, hT]
      try rfl
  have htotal : readFramesSpec (writeScript k rs1 0 hashSeed ++
      Frame.record (flipAt i j (serializeRecord r)) ::
        ((if k ≠ 0 ∧ (rs1.length + 1) % k = 0 then
            [Frame.cp (rs1.length + 1)
              (hashBytes (hashBytes hashSeed (payloadBytes rs1)) (serializeRecord r))]
          else []) ++
          writeScript k rs2 (rs1.length + 1)
            (hashBytes (hashBytes hashSeed (payloadBytes rs1)) (serializeRecord r))))
      hashSeed =
      some ⟨rs1 ++ r' :: rs2,
        obsOf k rs1 0 hashSeed hashSeed ++
          ((if k ≠ 0 ∧ (rs1.length + 1) % k = 0 then
              [(⟨rs1.length + 1,
                hashBytes (hashBytes hashSeed (payloadBytes rs1)) (serializeRecord r),
                hashBytes (hashBytes hashSeed (payloadBytes rs1))
                  (flipAt i j (serializeRecord r))⟩ : CheckObs)]
            else []) ++
            obsOf k rs2 (rs1.length + 1)
              (hashBytes (hashBytes hashSeed (payloadBytes rs1)) (serializeRecord r))
              (hashBytes (hashBytes hashSeed (payloadBytes rs1))
                (flipAt i j (serializeRecord r)))),
        hashBytes (hashBytes (hashBytes hashSeed (payloadBytes rs1))
          (flipAt i j (serializeRecord r))) (payloadBytes rs2)⟩ :=
    readFramesSpec_append_of _ _ hashSeed _ _ hA hB
  have hread : readDataFile (renderFile (writeScript k rs1 0 hashSeed ++
      Frame.record (flipAt i j (serializeRecord r)) ::
        ((if k ≠ 0 ∧ (rs1.length + 1) % k = 0 then
            [Frame.cp (rs1.length + 1)
              (hashBytes (hashBytes hashSeed (payloadBytes rs1)) (serializeRecord r))]
          else []) ++
          writeScript k rs2 (rs1.length + 1)
            (hashBytes (hashBytes hashSeed (payloadBytes rs1)) (serializeRecord r))))) =
      readFramesSpec (writeScript k rs1 0 hashSeed ++
        Frame.record (flipAt i j (serializeRecord r)) ::
          ((if k ≠ 0 ∧ (rs1.length + 1) % k = 0 then
              [Frame.cp (rs1.length + 1)
                (hashBytes (hashBytes hashSeed (payloadBytes rs1)) (serializeRecord r))]
            else []) ++
            writeScript k rs2 (rs1.length + 1)
              (hashBytes (hashBytes hashSeed (payloadBytes rs1)) (serializeRecord r))))
        hashSeed := readBody_renderFile _ hashSeed _ hwfF le_rfl
  have hfindA : List.find? (fun o => o.computed != o.embedded)
      (obsOf k rs1 0 hashSeed hashSeed) = none := by
    rw [List.find?_eq_none]
    intro o ho
    simp [obsOf_clean k rs1 0 hashSeed o ho]
  by_cases hc : (rs1.length + 1) % k = 0
  · refine ⟨rs1.length + 1, hc, by omega, by omega, by rw [hlenB]; omega, ?_⟩
    have hpred : (hashBytes (hashBytes hashSeed (payloadBytes rs1))
        (flipAt i j (serializeRecord r)) !=
        hashBytes (hashBytes hashSeed (payloadBytes rs1)) (serializeRecord r)) = true := by
      simp only [bne_iff_ne, ne_eq]
      exact fun h => hab h.symm
    unfold verifyRecordLevel corruptRecordFile
    rw [hread, htotal]
    simp only [if_pos (And.intro hk hc), List.singleton_append, List.find?_append, hfindA,
      Option.or]
    rw [@List.find?_cons_of_pos CheckObs (fun o => o.computed != o.embedded)
      ⟨rs1.length + 1, hashBytes (hashBytes hashSeed (payloadBytes rs1)) (serializeRecord r),
        hashBytes (hashBytes hashSeed (payloadBytes rs1)) (flipAt i j (serializeRecord r))⟩
      (obsOf k rs2 (rs1.length + 1)
        (hashBytes (hashBytes hashSeed (payloadBytes rs1)) (serializeRecord r))
        (hashBytes (hashBytes hashSeed (payloadBytes rs1)) (flipAt i j (serializeRecord r))))
      hpred]
  · have hex' : ∃ n', 0 < n' ∧ n' ≤ rs2.length ∧ (rs1.length + 1 + n') % k = 0 := by
      obtain ⟨c, hc1, hc2, hc3⟩ := hex
      have hcm1 : c ≠ rs1.length + 1 := by
        intro h
        rw [h] at hc3
        exact hc hc3
      refine ⟨c - (rs1.length + 1), by omega, by rw [hlenB] at hc2; omega, ?_⟩
      rw [show rs1.length + 1 + (c - (rs1.length + 1)) = c by omega]
      exact hc3
    obtain ⟨n0, rest, hn00, hn0l, hn0k, hn0le, hobs⟩ := obsOf_head_of_exists k rs2
      (rs1.length + 1)
      (hashBytes (hashBytes hashSeed (payloadBytes rs1)) (serializeRecord r))
      (hashBytes (hashBytes hashSeed (payloadBytes rs1)) (flipAt i j (serializeRecord r)))
      hk hex'
    have hn0ltk : n0 < k := by
      rcases Nat.lt_or_ge n0 k with h | h
      · exact h
      · have hkn : n0 = k := by omega
        rw [hkn, show rs1.length + 1 + k = (rs1.length + 1) + k from rfl,
          Nat.add_mod_right] at hn0k
        exact absurd hn0k hc
    refine ⟨rs1.length + 1 + n0, hn0k, by omega, by omega, by rw [hlenB]; omega, ?_⟩
    have hpred : (hashBytes (hashBytes (hashBytes hashSeed (payloadBytes rs1))
        (flipAt i j (serializeRecord r))) (payloadBytes (rs2.take n0)) !=
        hashBytes (hashBytes (hashBytes hashSeed (payloadBytes rs1)) (serializeRecord r))
          (payloadBytes (rs2.take n0))) = true := by
      simp only [bne_iff_ne, ne_eq]
      exact hashBytes_ne_of_acc_ne _ _ _ hb1lt ha1lt (fun h => hab h.symm)
    unfold verifyRecordLevel corruptRecordFile
    rw [hread, htotal]
    simp only [if_neg (fun hcc : k ≠ 0 ∧ (rs1.length + 1) % k = 0 => hc hcc.2),
      List.nil_append, List.find?_append, hfindA, Option.or, hobs]
    rw [@List.find?_cons_of_pos CheckObs (fun o => o.computed != o.embedded)
      ⟨rs1.length + 1 + n0,
        hashBytes (hashBytes (hashBytes hashSeed (payloadBytes rs1)) (serializeRecord r))
          (payloadBytes (rs2.take n0)),
        hashBytes (hashBytes (hashBytes hashSeed (payloadBytes rs1))
          (flipAt i j (serializeRecord r))) (payloadBytes (rs2.take n0))⟩
      rest hpred]

theorem verifyDataFile_single (level : VerifyLevel) (d : DataFileDescriptor)
    (bytes : List Nat) :
    verifyDataFile level [(d.filename, bytes)] d =
      match level with
      | .file => verifyFileLevel bytes d
      | .record => verifyRecordLevel bytes d := by
  unfold verifyDataFile
  rw [lookup_single]

theorem verifyBackup_single_notIntact (level : VerifyLevel) (m : Metadata)
    (d : DataFileDescriptor) (bytes : List Nat) (msgs : List String)
    (hm : m.data_files = [d])
    (hv : verifyDataFile level [(d.filename, bytes)] d = FileIntegrity.notIntact msgs) :
    (verifyBackup level m [(d.filename, bytes)]).exitCode = 1 := by
  show (if _ then 0 else 1) = 1
  rw [if_neg ?_]
  intro hall
  rw [List.all_eq_true] at hall
  have hx := hall (d.filename, verifyDataFile level [(d.filename, bytes)] d)
    (by rw [hm]; simp)
  rw [hv] at hx
  simp at hx

/-- C5 counterexample: on the zero-checkpoint bit-flipped fixture scenario,
record-level verify reports the message
`InvalidChecksum: Found checksum mismatch after reading full data file.`
(capitalized `Found`, trailing period), which is not the exact message the
claim states. -/
theorem claim_C5_counterexample :
    (readDataFile (writeDataFile 0 [(⟨none, none, [], 0, 0, 0⟩ : SRecord)])).map
        ReadResult.checkObs = some [] ∧
      flipAt 19 0 (writeDataFile 0 [(⟨none, none, [], 0, 0, 0⟩ : SRecord)]) ≠
        writeDataFile 0 [(⟨none, none, [], 0, 0, 0⟩ : SRecord)] ∧
      verifyRecordLevel
          (flipAt 19 0 (writeDataFile 0 [(⟨none, none, [], 0, 0, 0⟩ : SRecord)]))
          (finalizeDescriptor "t" 0 [(⟨none, none, [], 0, 0, 0⟩ : SRecord)]) =
        FileIntegrity.notIntact
          ["InvalidChecksum: Found checksum mismatch after reading full data file."] ∧
      ("InvalidChecksum: Found checksum mismatch after reading full data file." : String) ≠
        "InvalidChecksum: found checksum mismatch after reading full data file" := by
  decide

/-- C5 (amended): for every corrupted-but-parsable data file containing zero
checkpoints, record-level verify reports the same whole-file verdict as
file-level verify, using exactly the message `InvalidChecksum: Found
checksum mismatch after reading full data file.`, and exits with status 1;
when a checkpoint follows the corrupted record, the message instead
localizes the mismatch to the checkpoint interval in which it occurred. -/
theorem claim_C5_record_level_messages :
    (∀ (topic : String) (pp : Nat) (rs1 : List SRecord) (r : SRecord) (rs2 : List SRecord)
        (i j : Nat) (r' : SRecord),
      (∀ x ∈ rs1 ++ r :: rs2, wfRecord x) → j < 8 → i < (serializeRecord r).length →
      parseRecord (flipAt i j (serializeRecord r)) = some (r', []) →
      verifyRecordLevel (corruptRecordFile 0 rs1 r rs2 (flipAt i j (serializeRecord r)))
          (finalizeDescriptor topic pp (rs1 ++ r :: rs2)) =
        FileIntegrity.notIntact [genericMismatchMessage] ∧
      verifyFileLevel (corruptRecordFile 0 rs1 r rs2 (flipAt i j (serializeRecord r)))
          (finalizeDescriptor topic pp (rs1 ++ r :: rs2)) = FileIntegrity.notIntact [] ∧
      genericMismatchMessage =
        "InvalidChecksum: Found checksum mismatch after reading full data file." ∧
      (verifyBackup VerifyLevel.record
          ⟨3, toolName, toolVersion, 0, 1, topic, none, 1, "xxhash3_64_be",
            [finalizeDescriptor topic pp (rs1 ++ r :: rs2)]⟩
          [((finalizeDescriptor topic pp (rs1 ++ r :: rs2)).filename,
            corruptRecordFile 0 rs1 r rs2 (flipAt i j (serializeRecord r)))]).exitCode =
        1) ∧
    (∀ (topic : String) (pp k : Nat) (rs1 : List SRecord) (r : SRecord) (rs2 : List SRecord)
        (i j : Nat) (r' : SRecord),
      (∀ x ∈ rs1 ++ r :: rs2, wfRecord x) → (rs1 ++ r :: rs2).length < B64 →
      j < 8 → i < (serializeRecord r).length → k ≠ 0 →
      (∃ c, rs1.length < c ∧ c ≤ (rs1 ++ r :: rs2).length ∧ c % k = 0) →
      parseRecord (flipAt i j (serializeRecord r)) = some (r', []) →
      ∃ c, c % k = 0 ∧ rs1.length < c ∧ c ≤ rs1.length + k ∧
        c ≤ (rs1 ++ r :: rs2).length ∧
        verifyRecordLevel (corruptRecordFile k rs1 r rs2 (flipAt i j (serializeRecord r)))
            (finalizeDescriptor topic pp (rs1 ++ r :: rs2)) =
          FileIntegrity.notIntact [checkpointMismatchMessage c] ∧
        checkpointMismatchMessage c ≠ genericMismatchMessage) := by
  constructor
  · intro topic pp rs1 r rs2 i j r' hwf hj hi hparse
    have hrec := verifyRecordLevel_corrupt_zero topic pp rs1 r rs2 i j r' hwf hj hi hparse
    have hfile := verifyFileLevel_corrupt_zero topic pp rs1 r rs2 i j hwf hj hi
    refine ⟨hrec, hfile, rfl, ?_⟩
    refine verifyBackup_single_notIntact VerifyLevel.record _ _ _ [genericMismatchMessage]
      rfl ?_
    rw [verifyDataFile_single]
    exact hrec
  · intro topic pp k rs1 r rs2 i j r' hwf hlen hj hi hk hex hparse
    obtain ⟨c, h1, h2, h3, h4, h5⟩ := verifyRecordLevel_corrupt_localized topic pp k rs1 r
      rs2 i j r' hwf hlen hj hi hk hex hparse
    exact ⟨c, h1, h2, h3, h4, h5, checkpointMismatchMessage_ne_generic c⟩

theorem ite_or3 {α : Type} (c1 c2 c3 : Bool) (L E : α) :
    (if c1 then L else if c2 then L else if c3 then L else E) =
      (if c1 || c2 || c3 then L else E) := by
  cases c1 <;> cases c2 <;> cases c3 <;> simp

theorem verifyLoop_cons (ki : KnownIndexes) (di ip : List (List Char)) (raw : List Char)
    (rest : List (List Char)) :
    ProtobufDependencyVerifier.verifyLoop ki di ip (raw :: rest) =
      if ProtobufDependencyVerifier.resolvesUsedType ki di ip raw then
        ProtobufDependencyVerifier.verifyLoop ki di ip rest
      else ⟨false, some (ProtobufDependencyVerifier.undefinedTypeMessage
        (ProtobufDependencyVerifier.strippedName raw))⟩ := by
  simp only [ProtobufDependencyVerifier.resolvesUsedType,
    ProtobufDependencyVerifier.strippedName]
  rw [← ite_or3]
  rfl

theorem verifyLoop_spec (ki : KnownIndexes) (di ip : List (List Char))
    (ts : List (List Char)) :
    (ProtobufDependencyVerifier.verifyLoop ki di ip ts = ⟨true, none⟩ ↔
      ∀ t ∈ ts, ProtobufDependencyVerifier.resolvesUsedType ki di ip t = true) ∧
    (∀ t, ts.find?
        (fun t => !ProtobufDependencyVerifier.resolvesUsedType ki di ip t) = some t →
      ProtobufDependencyVerifier.verifyLoop ki di ip ts =
        ⟨false, some (ProtobufDependencyVerifier.undefinedTypeMessage
          (ProtobufDependencyVerifier.strippedName t))⟩) := by
  induction ts with
  | nil =>
    constructor
    · simp [ProtobufDependencyVerifier.verifyLoop]
    · intro t ht
      simp at ht
  | cons raw rest ih =>
    rw [verifyLoop_cons]
    by_cases hres : ProtobufDependencyVerifier.resolvesUsedType ki di ip raw = true
    · rw [if_pos hres]
      constructor
      · constructor
        · intro h t ht
          rcases List.mem_cons.1 ht with h' | h'
          · rw [h']
            exact hres
          · exact (ih.1).1 h t h'
        · intro h
          exact (ih.1).2 (fun t ht => h t (by simp [ht]))
      · intro t ht
        rw [List.find?_cons_of_neg _ (by simp [hres])] at ht
        exact ih.2 t ht
    · rw [if_neg hres]
      constructor
      · constructor
        · intro h
          cases h
        · intro h
          exact absurd (h raw (by simp)) hres
      · intro t ht
        rw [List.find?_cons_of_pos _ (by simp [hres])] at ht
        cases ht
        rfl

/-- C9: `ProtobufDependencyVerifier.verify` succeeds iff every recorded used
type, after stripping its parent scope, is hardcoded, maps through the
known-dependency indexes to an imported package, or is declared in one of
the four accepted forms; otherwise it fails naming the first unresolved used
type in insertion order. -/
theorem claim_C9_dependency_verify (ki : KnownIndexes) (v : ProtobufDependencyVerifier) :
    (ProtobufDependencyVerifier.verify ki v = ⟨true, none⟩ ↔
      ∀ t ∈ v.used_types,
        ProtobufDependencyVerifier.resolvesUsedType ki v.declared_types v.import_path t =
          true) ∧
    (∀ t, v.used_types.find?
        (fun t => !ProtobufDependencyVerifier.resolvesUsedType ki v.declared_types
          v.import_path t) = some t →
      ProtobufDependencyVerifier.verify ki v =
        ⟨false, some (ProtobufDependencyVerifier.undefinedTypeMessage
          (ProtobufDependencyVerifier.strippedName t))⟩) :=
  verifyLoop_spec ki v.declared_types v.import_path v.used_types

theorem findIdxQ_go {c : Char} (s : List Char) (i : Nat) (h : c ∈ s) :
    s.findIdx? (fun x => x == c) i = some (i + s.findIdx (fun x => x == c)) := by
  induction s generalizing i with
  | nil => simp at h
  | cons a s ih =>
    rw [List.findIdx?_cons, List.findIdx_cons]
    by_cases hac : (a == c) = true
    · simp [hac]
    · have hm : c ∈ s := by
        rcases List.mem_cons.1 h with h' | h'
        · exact absurd (beq_iff_eq.2 h'.symm) hac
        · exact h'
      rw [if_neg hac, ih (i + 1) hm]
      have hfalse : (a == c) = false := by
        simpa using hac
      simp only [hfalse, Bool.cond_false, Option.some.injEq]
      omega

theorem findIdxQ_of_mem {c : Char} (s : List Char) (h : c ∈ s) :
    s.findIdx? (fun x => x == c) = some (s.findIdx (fun x => x == c)) := by
  simpa using findIdxQ_go s 0 h

theorem findIdx_lt_of_mem {c : Char} (s : List Char) (h : c ∈ s) :
    s.findIdx (fun x => x == c) < s.length := by
  induction s with
  | nil => simp at h
  | cons a s ih =>
    rw [List.findIdx_cons]
    by_cases hac : (a == c) = true
    · simp [hac]
    · have hm : c ∈ s := by
        rcases List.mem_cons.1 h with h' | h'
        · exact absurd (beq_iff_eq.2 h'.symm) hac
        · exact h'
      have hfalse : (a == c) = false := by
        simpa using hac
      have hlt := ih hm
      simp only [hfalse, Bool.cond_false, List.length_cons]
      omega

theorem pySlice_nat (s : List Char) (a b : Nat) (ha : a ≤ s.length) (hb : b ≤ s.length) :
    pySlice s (a : Int) (b : Int) = (s.take b).drop a := by
  unfold pySlice pySliceIdx
  rw [if_neg (by omega), if_neg (by omega), Int.toNat_natCast, Int.toNat_natCast,
    min_eq_left ha, min_eq_left hb]

/-- From the claim's words: the key of a `map<...>` element type, the text
between `map<` and the first comma. -/
def mapKeySpec (et : List Char) : List Char :=
  (et.take (et.findIdx (fun c => c == ','))).drop 4

/-- From the claim's words: the value of a `map<...>` element type, the
whitespace-stripped text between the first comma and the first `>`. -/
def mapValueSpec (et : List Char) : List Char :=
  pyStrip ((et.take (et.findIdx (fun c => c == '>'))).drop
    (et.findIdx (fun c => c == ',') + 1))

/-- C10: `add_used_type` appends exactly two entries `parent;key` and
`parent;value` for a `map<...>` element type — key the text between `map<`
and the first comma, value the stripped text between the first comma and the
first `>` — and exactly one entry `parent;element_type` otherwise, changing
no other verifier state. -/
theorem claim_C10_add_used_type (v : ProtobufDependencyVerifier) (parent et : List Char) :
    (¬ (['m', 'a', 'p', '<']).isPrefixOf et →
      ProtobufDependencyVerifier.add_used_type v parent et =
        { v with used_types := v.used_types ++ [parent ++ ';' :: et] }) ∧
    ((['m', 'a', 'p', '<']).isPrefixOf et → ',' ∈ et → '>' ∈ et →
      ProtobufDependencyVerifier.add_used_type v parent et =
        { v with used_types := v.used_types ++
            [parent ++ ';' :: mapKeySpec et, parent ++ ';' :: mapValueSpec et] }) := by
  constructor
  · intro h
    unfold ProtobufDependencyVerifier.add_used_type
    rw [if_neg h]
  · intro hpre hc hg
    have hlen4 : 4 ≤ et.length := by
      have := List.IsPrefix.length_le (List.isPrefixOf_iff_prefix.1 hpre)
      simpa using this
    have hvlt : et.findIdx (fun x => x == ',') < et.length := findIdx_lt_of_mem et hc
    have hglt : et.findIdx (fun x => x == '>') < et.length := findIdx_lt_of_mem et hg
    unfold ProtobufDependencyVerifier.add_used_type pyFindChar
    rw [if_pos hpre]
    simp only [findIdxQ_of_mem et hc, findIdxQ_of_mem et hg]
    have hcast : ((et.findIdx (fun x => x == ',') : Int) + 1) =
        ((et.findIdx (fun x => x == ',') + 1 : Nat) : Int) := by
      push_cast
      ring
    rw [show (4 : Int) = ((4 : Nat) : Int) from rfl, hcast,
      pySlice_nat et 4 _ (by omega) (by omega),
      pySlice_nat et _ _ (by omega) (by omega)]
    rfl

/-- Witness for C1: the two-record scenario of spec §8, backed up and
restored on partition 0. -/
theorem claim_C1_witness :
    ∃ d ∈ (backup "t" 1 (fun _ =>
        [(⟨some [98, 97, 114], some [102, 111, 111], [], 1683474641, 0, 0⟩ : SRecord),
          ⟨some [102, 111, 111], some [98, 97, 114], [([104], [118])], 1683474657, 0, 1⟩])
        0 5 3).metadata.data_files,
      d.partition = 0 ∧
        restorePartition (backup "t" 1 (fun _ =>
            [(⟨some [98, 97, 114], some [102, 111, 111], [], 1683474641, 0, 0⟩ : SRecord),
              ⟨some [102, 111, 111], some [98, 97, 114], [([104], [118])], 1683474657, 0, 1⟩])
            0 5 3).directory d =
          some (((fun _ =>
              [(⟨some [98, 97, 114], some [102, 111, 111], [], 1683474641, 0, 0⟩ : SRecord),
                ⟨some [102, 111, 111], some [98, 97, 114], [([104], [118])], 1683474657, 0,
                  1⟩]) (0 : Nat)).enum.map (fun q =>
            (⟨q.2.key, q.2.value, q.2.headers, q.2.timestamp, q.2.timestamp_type,
              q.1⟩ : TargetRecord))) :=
  claim_C1_backup_restore_roundtrip "t" 1 _ 0 5 3 0 (by decide) (by decide) (by decide)
    (by decide)

/-- Witness for C4: a concrete untouched single-record backup verifies clean
at file level with exit status 0, and flipping one bit of a record byte in a
cadence-1 (checkpointed) single-record data file is reported not intact with
exit status 1. -/
theorem claim_C4_witness :
    ((∀ x ∈ (verifyBackup VerifyLevel.file
        (backup "t" 1 (fun _ => [(⟨none, none, [], 7, 0, 0⟩ : SRecord)]) 1 0 1).metadata
        (backup "t" 1 (fun _ => [(⟨none, none, [], 7, 0, 0⟩ : SRecord)]) 1 0 1).directory).results,
      x.2 = FileIntegrity.intact) ∧
      (verifyBackup VerifyLevel.file
        (backup "t" 1 (fun _ => [(⟨none, none, [], 7, 0, 0⟩ : SRecord)]) 1 0 1).metadata
        (backup "t" 1 (fun _ => [(⟨none, none, [], 7, 0, 0⟩ : SRecord)]) 1 0 1).directory).exitCode =
        0) ∧
      (corruptRecordFile 1 [] (⟨none, none, [], 0, 0, 0⟩ : SRecord) []
          (flipAt 10 0 (serializeRecord (⟨none, none, [], 0, 0, 0⟩ : SRecord))) ≠
          writeDataFile 1 ([] ++ (⟨none, none, [], 0, 0, 0⟩ : SRecord) :: []) ∧
        verifyFileLevel
            (corruptRecordFile 1 [] (⟨none, none, [], 0, 0, 0⟩ : SRecord) []
              (flipAt 10 0 (serializeRecord (⟨none, none, [], 0, 0, 0⟩ : SRecord))))
            (finalizeDescriptor "t" 0 ([] ++ (⟨none, none, [], 0, 0, 0⟩ : SRecord) :: [])) =
          FileIntegrity.notIntact [] ∧
        (verifyBackup VerifyLevel.file
            ⟨3, toolName, toolVersion, 0, 1, "t", none, 1, "xxhash3_64_be",
              [finalizeDescriptor "t" 0 ([] ++ (⟨none, none, [], 0, 0, 0⟩ : SRecord) :: [])]⟩
            [((finalizeDescriptor "t" 0
                ([] ++ (⟨none, none, [], 0, 0, 0⟩ : SRecord) :: [])).filename,
              corruptRecordFile 1 [] (⟨none, none, [], 0, 0, 0⟩ : SRecord) []
                (flipAt 10 0
                  (serializeRecord (⟨none, none, [], 0, 0, 0⟩ : SRecord))))]).exitCode =
          1) :=
  ⟨claim_C4_file_level_verify.1 "t" 1 (fun _ => [(⟨none, none, [], 7, 0, 0⟩ : SRecord)]) 1 0 1
      (by decide),
    claim_C4_file_level_verify.2.1 1 "t" 0 [] (⟨none, none, [], 0, 0, 0⟩ : SRecord) [] 10 0
      (by decide) (by decide) (by decide) (by decide)⟩

/-- Witness for C5: a concrete zero-checkpoint file with the timestamp byte
of its only record bit-flipped gets the generic record-level message and
exit status 1. -/
theorem claim_C5_witness :
    verifyRecordLevel
        (corruptRecordFile 0 [] (⟨none, none, [], 0, 0, 0⟩ : SRecord) []
          (flipAt 10 0 (serializeRecord (⟨none, none, [], 0, 0, 0⟩ : SRecord))))
        (finalizeDescriptor "t" 0 ([] ++ (⟨none, none, [], 0, 0, 0⟩ : SRecord) :: [])) =
      FileIntegrity.notIntact [genericMismatchMessage] ∧
      verifyFileLevel
        (corruptRecordFile 0 [] (⟨none, none, [], 0, 0, 0⟩ : SRecord) []
          (flipAt 10 0 (serializeRecord (⟨none, none, [], 0, 0, 0⟩ : SRecord))))
        (finalizeDescriptor "t" 0 ([] ++ (⟨none, none, [], 0, 0, 0⟩ : SRecord) :: [])) =
        FileIntegrity.notIntact [] ∧
      genericMismatchMessage =
        "InvalidChecksum: Found checksum mismatch after reading full data file." ∧
      (verifyBackup VerifyLevel.record
        ⟨3, toolName, toolVersion, 0, 1, "t", none, 1, "xxhash3_64_be",
          [finalizeDescriptor "t" 0 ([] ++ (⟨none, none, [], 0, 0, 0⟩ : SRecord) :: [])]⟩
        [((finalizeDescriptor "t" 0
            ([] ++ (⟨none, none, [], 0, 0, 0⟩ : SRecord) :: [])).filename,
          corruptRecordFile 0 [] (⟨none, none, [], 0, 0, 0⟩ : SRecord) []
            (flipAt 10 0 (serializeRecord (⟨none, none, [], 0, 0, 0⟩ : SRecord))))]).exitCode =
        1 :=
  claim_C5_record_level_messages.1 "t" 0 [] (⟨none, none, [], 0, 0, 0⟩ : SRecord) [] 10 0
    (⟨none, none, [], 1, 0, 0⟩ : SRecord) (by decide) (by decide) (by decide) (by decide)

/-- Witness for C6: a one-byte input sniffs as V1 and verify rejects it with
exit 1, the version-naming message, and no standard output. -/
theorem claim_C6_witness :
    sniffVersion [9] = SniffedVersion.V1 ∧
      verifyCmd VerifyLevel.file [9] [] =
        ⟨1, [], ["Only backups using format V3 can be verified, found V1."]⟩ :=
  ⟨by decide, (claim_C6_verify_legacy_rejection [9] [] VerifyLevel.file).1 (by decide)⟩

/-- Witness for C7: inspecting metadata naming a future checksum algorithm
succeeds, renders `"unknown"`, and warns. -/
theorem claim_C7_witness :
    (inspectMetadata ⟨3, "karapace", "3.4.6", 10, 20, "a5f7a413", none, 1, "future_algo",
        []⟩).exitCode = 0 ∧
      (inspectMetadata ⟨3, "karapace", "3.4.6", 10, 20, "a5f7a413", none, 1, "future_algo",
        []⟩).output.checksum_algorithm = "unknown" ∧
      (inspectMetadata ⟨3, "karapace", "3.4.6", 10, 20, "a5f7a413", none, 1, "future_algo",
        []⟩).output.version = 3 ∧
      (inspectMetadata ⟨3, "karapace", "3.4.6", 10, 20, "a5f7a413", none, 1, "future_algo",
        []⟩).warnings = [unknownAlgorithmWarning] := by
  have h := claim_C7_inspect_unknown_algorithm
    ⟨3, "karapace", "3.4.6", 10, 20, "a5f7a413", none, 1, "future_algo", []⟩ (by decide)
  exact ⟨h.1, h.2.1, h.2.2.1, h.2.2.2.2.2.2.2.2.2.2.2⟩

/-- Witness for C9: a concrete verifier state with one resolvable and the
first unresolvable used type. -/
theorem claim_C9_witness :
    (ProtobufDependencyVerifier.verify
        ⟨fun t => t == ['i', 'n', 't', '3', '2'], fun _ => none, fun _ => none⟩
        ⟨[['A']], [['P', ';', 'i', 'n', 't', '3', '2'], ['P', ';', 'B']], []⟩ =
      ⟨true, none⟩ ↔
      ∀ t ∈ [['P', ';', 'i', 'n', 't', '3', '2'], ['P', ';', 'B']],
        ProtobufDependencyVerifier.resolvesUsedType
          ⟨fun t => t == ['i', 'n', 't', '3', '2'], fun _ => none, fun _ => none⟩
          [['A']] [] t = true) ∧
      (∀ t, ([['P', ';', 'i', 'n', 't', '3', '2'], ['P', ';', 'B']] : List (List Char)).find?
          (fun t => !ProtobufDependencyVerifier.resolvesUsedType
            ⟨fun t => t == ['i', 'n', 't', '3', '2'], fun _ => none, fun _ => none⟩
            [['A']] [] t) = some t →
        ProtobufDependencyVerifier.verify
          ⟨fun t => t == ['i', 'n', 't', '3', '2'], fun _ => none, fun _ => none⟩
          ⟨[['A']], [['P', ';', 'i', 'n', 't', '3', '2'], ['P', ';', 'B']], []⟩ =
          ⟨false, some (ProtobufDependencyVerifier.undefinedTypeMessage
            (ProtobufDependencyVerifier.strippedName t))⟩) :=
  claim_C9_dependency_verify
    ⟨fun t => t == ['i', 'n', 't', '3', '2'], fun _ => none, fun _ => none⟩
    ⟨[['A']], [['P', ';', 'i', 'n', 't', '3', '2'], ['P', ';', 'B']], []⟩

/-- Witness for C10: recording the used type `map<int32, string>` under
parent `P` appends exactly the key and the stripped value entries. -/
theorem claim_C10_witness :
    ProtobufDependencyVerifier.add_used_type ⟨[], [], []⟩ ['P']
        ['m', 'a', 'p', '<', 'i', 'n', 't', '3', '2', ',', ' ', 's', 't', 'r', 'i', 'n',
          'g', '>'] =
      { (⟨[], [], []⟩ : ProtobufDependencyVerifier) with
        used_types := [] ++
          [['P'] ++ ';' :: mapKeySpec ['m', 'a', 'p', '<', 'i', 'n', 't', '3', '2', ',',
            ' ', 's', 't', 'r', 'i', 'n', 'g', '>'],
          ['P'] ++ ';' :: mapValueSpec ['m', 'a', 'p', '<', 'i', 'n', 't', '3', '2', ',',
            ' ', 's', 't', 'r', 'i', 'n', 'g', '>']] } :=
  (claim_C10_add_used_type ⟨[], [], []⟩ ['P']
    ['m', 'a', 'p', '<', 'i', 'n', 't', '3', '2', ',', ' ', 's', 't', 'r', 'i', 'n', 'g',
      '>']).2 (by decide) (by decide) (by decide)

end Karapace
